import Mathlib

/-!
Verification of the TseinDNS wire codec, cache and transport layer.

The Rust sources are embedded shallowly:

* `bytes::Bytes` buffers become `List Nat`, each element a byte value.
  Indexing uses `List.getD _ _ 0`; at indices where the Rust code would
  panic (out-of-bounds slicing or `get_u16` past the end) the embedding
  returns default bytes instead.  Every theorem below only evaluates the
  embedded functions at inputs where the Rust code does not panic.
* machine integers (`u8`, `u16`, `u32`, `u128`, `usize`) become `Nat`
  with explicit `% 2^w` at the places where the Rust code truncates
  (`as u8` / `as u16` casts); `usize` subtraction that cannot underflow
  on the inputs considered is Nat subtraction.
* fallible functions return `Except`, `Option` models the places where
  the Rust code unwraps.
* async functions that only perform sequential reads from a byte stream
  (`Header::parse_stream`) become functions consuming a `List Nat`.
-/

namespace TseinDNS

/-! ## Byte-level primitives (bytes::Buf / bytes::BufMut) -/

/-- A byte buffer (`bytes::Bytes`); each entry is one byte value. -/
abbrev Bytes := List Nat

/-- Read the byte at index `i` (Rust `packet[i]`; 0 where Rust would panic).
The read value has type `u8`, hence the `% 256`. -/
def byteAt (p : Bytes) (i : Nat) : Nat := p.getD i 0 % 256

/-- Big-endian `get_u16` at absolute index `i`. -/
def getU16 (p : Bytes) (i : Nat) : Nat := byteAt p i * 256 + byteAt p (i + 1)

/-- Big-endian `get_u32` at absolute index `i`. -/
def getU32 (p : Bytes) (i : Nat) : Nat :=
  byteAt p i * 16777216 + byteAt p (i + 1) * 65536 + byteAt p (i + 2) * 256 + byteAt p (i + 3)

/-- Big-endian `get_u128` at absolute index `i` (16 bytes, accumulated
most-significant first). -/
def getU128 (p : Bytes) (i : Nat) : Nat :=
  ((((((((((((((byteAt p i * 256 +
  byteAt p (i + 1)) * 256 +
  byteAt p (i + 2)) * 256 +
  byteAt p (i + 3)) * 256 +
  byteAt p (i + 4)) * 256 +
  byteAt p (i + 5)) * 256 +
  byteAt p (i + 6)) * 256 +
  byteAt p (i + 7)) * 256 +
  byteAt p (i + 8)) * 256 +
  byteAt p (i + 9)) * 256 +
  byteAt p (i + 10)) * 256 +
  byteAt p (i + 11)) * 256 +
  byteAt p (i + 12)) * 256 +
  byteAt p (i + 13)) * 256 +
  byteAt p (i + 14)) * 256 +
  byteAt p (i + 15)

/-- Big-endian `put_u16` of a `u16` value. -/
def putU16 (x : Nat) : Bytes := [x % 65536 / 256, x % 256]

/-- Big-endian `put_u32` of a `u32` value. -/
def putU32 (x : Nat) : Bytes :=
  [x % 4294967296 / 16777216, x % 16777216 / 65536, x % 65536 / 256, x % 256]

/-- Big-endian `put_u128` of a `u128` value, as 16 bytes. -/
def putU128 (x : Nat) : Bytes :=
  [x / 1329227995784915872903807060280344576 % 256,
   x / 5192296858534827628530496329220096 % 256,
   x / 20282409603651670423947251286016 % 256,
   x / 79228162514264337593543950336 % 256,
   x / 309485009821345068724781056 % 256,
   x / 1208925819614629174706176 % 256,
   x / 4722366482869645213696 % 256,
   x / 18446744073709551616 % 256,
   x / 72057594037927936 % 256,
   x / 281474976710656 % 256,
   x / 1099511627776 % 256,
   x / 4294967296 % 256,
   x / 16777216 % 256,
   x / 65536 % 256,
   x / 256 % 256,
   x % 256]

/-- Contiguous slice of `n` bytes starting at index `i` (Rust `&p[i..i+n]`;
truncated where Rust would panic). -/
def sliceBytes (p : Bytes) (i n : Nat) : Bytes := (p.drop i).take n

/-! ## Error taxonomy (src/protocol/error.rs) -/

/-- `Name` stores a domain name as a vector of labels; a Rust label is a
`String`, i.e. its UTF-8 bytes, embedded here as the byte list itself
(two Rust `String`s are equal iff their byte sequences are equal). -/
structure Name where
  labels : List Bytes
deriving DecidableEq, Repr

/-- Opcode enum `Op` (src/protocol/header.rs `pub_map_enum!`). -/
inductive Op where
  | query
  | iquery
  | status
  | reserved (x : Nat)
deriving DecidableEq, Repr

/-- `From<u8> for Op`. -/
def Op.ofNat (x : Nat) : Op :=
  if x = 0 then .query else if x = 1 then .iquery else if x = 2 then .status else .reserved x

/-- `From<Op> for u8`. -/
def Op.toNat : Op → Nat
  | .query => 0
  | .iquery => 1
  | .status => 2
  | .reserved x => x

/-- An IP address (`std::net::IpAddr`): only carried as an opaque payload of
`PacketError::Refused`, never inspected by the embedded code. -/
structure IpAddr where
  val : Nat
deriving DecidableEq, Repr

/-- `PacketError` (src/protocol/error.rs). -/
inductive PacketError where
  | formatError
  | servFail
  | nameError (n : Name)
  | notImpl (op : Op)
  | refused (addr : IpAddr)
deriving DecidableEq, Repr

/-- `TransactionError` (src/protocol/error.rs): a `PacketError` plus the
transaction id when it is known. -/
structure TransactionError where
  id : Option Nat
  error : PacketError
deriving DecidableEq, Repr

/-! ## Name parsing (src/protocol/domain.rs) -/

/-- UTF-8 validation automaton: `k` is the number of continuation bytes still
expected, with the next one constrained to `[lo, hi]` (subsequent ones to
`[0x80, 0xbf]`).  Lead-byte ranges follow RFC 3629 as implemented by Rust
core (no overlong forms, no surrogates, max U+10FFFF). -/
def utf8Loop : Bytes → Nat → Nat → Nat → Bool
  | [], 0, _, _ => true
  | [], _ + 1, _, _ => false
  | b :: rest, 0, _, _ =>
    if b < 0x80 then utf8Loop rest 0 0 0
    else if b < 0xc2 then false
    else if b < 0xe0 then utf8Loop rest 1 0x80 0xbf
    else if b = 0xe0 then utf8Loop rest 2 0xa0 0xbf
    else if b = 0xed then utf8Loop rest 2 0x80 0x9f
    else if b < 0xf0 then utf8Loop rest 2 0x80 0xbf
    else if b = 0xf0 then utf8Loop rest 3 0x90 0xbf
    else if b < 0xf4 then utf8Loop rest 3 0x80 0xbf
    else if b = 0xf4 then utf8Loop rest 3 0x80 0x8f
    else false
  | b :: rest, k + 1, lo, hi =>
    if lo ≤ b ∧ b ≤ hi then utf8Loop rest k 0x80 0xbf else false

/-- UTF-8 validity of a byte sequence (Rust `String::from_utf8` succeeds). -/
def validUtf8 (l : Bytes) : Bool := utf8Loop l 0 0 0

/-- The loop of `Name::parse` (domain.rs lines 85-138), generalized over the
jump limit `maxJumps` (the source fixes `MAX_JUMPS = 5`) and instrumented to
also return the number of pointer hops followed (the final value of the
`jumps` counter).  State arguments mirror the Rust locals
`pos, jumps, is_jumped, domain_end, labels, size`. -/
def parseLoop (maxJumps : Nat) (packet : Bytes) (pos jumps : Nat) (isJumped : Bool)
    (domainEnd : Nat) (labels : List Bytes) (size : Nat) :
    Except PacketError (Name × Nat × Nat) :=
  if jumps > maxJumps ∨ pos ≥ packet.length then .error .formatError
  else
    let b := byteAt packet pos
    if b = 0 then
      -- `break`, then the final `size >= MAX_NAME_LENGTH` check
      if size ≥ 253 then .error .formatError else .ok (⟨labels⟩, domainEnd, jumps)
    else if h : 0xc0 ≤ b then
      -- pointer case: `jmp & PTR_MASK == PTR_MASK` with PTR_MASK = 0xc0, i.e.
      -- both top bits of the `u8` are set, i.e. 0xc0 ≤ b (b < 256 by byteAt)
      let domainEnd' := if isJumped then domainEnd else pos + 2
      if pos + 1 ≥ packet.length then .error .formatError
      else
        -- `jmp ^ PTR_MASK` clears the two top bits, i.e. subtracts 0xc0
        let jmpTo := (b - 0xc0) * 256 + byteAt packet (pos + 1)
        if h2 : jmpTo ≥ packet.length then .error .formatError
        else parseLoop maxJumps packet jmpTo (jumps + 1) true domainEnd' labels size
    else
      -- label case
      let len := b
      let en := pos + 1 + len
      if h3 : en > packet.length then .error .formatError
      else
        let label := sliceBytes packet (pos + 1) len
        if validUtf8 label then
          let domainEnd' := if isJumped then domainEnd else en + 1
          parseLoop maxJumps packet en jumps isJumped domainEnd' (labels ++ [label]) (size + len + 1)
        else .error .formatError
termination_by (maxJumps + 1 - jumps, packet.length - pos)
decreasing_by
  · apply Prod.Lex.left
    omega
  · apply Prod.Lex.right'
    · omega
    · simp only [not_or, not_lt] at *
      omega

/-- `Name::parse` generalized over the jump limit, returning the name, its
end position in the packet, and the number of pointer hops followed.
The entry test `packet[pos] == 0` (domain.rs line 81) short-circuits the
empty name. -/
def nameParseG (maxJumps : Nat) (packet : Bytes) (pos : Nat) :
    Except PacketError (Name × Nat × Nat) :=
  if byteAt packet pos = 0 then .ok (⟨[]⟩, pos + 1, 0)
  else parseLoop maxJumps packet pos 0 false 0 [] 0

/-- `Name::parse` (domain.rs lines 66-144): jump limit 5, hop count dropped. -/
def Name.parse (packet : Bytes) (pos : Nat) : Except PacketError (Name × Nat) :=
  (nameParseG 5 packet pos).map (fun r => (r.1, r.2.1))

/-- Encoding of a label vector: for each label a length byte
(`label.len() as u8`, hence `% 256`) followed by the label bytes. -/
def encBody (ls : List Bytes) : Bytes :=
  ls.flatMap (fun l => (l.length % 256) :: l)

/-- `Name::as_bytes_uncompressed` (domain.rs lines 146-156): the encoded
labels terminated by `0`. -/
def Name.asBytesUncompressed (n : Name) : Bytes :=
  encBody n.labels ++ [0]

/-- Rust `impl PartialEq for Name` (domain.rs lines 192-199): zip the two
label vectors and require all zipped pairs equal; the zip stops at the
shorter vector. -/
def Name.rustEq (a b : Name) : Bool :=
  (a.labels.zip b.labels).all (fun p => p.1 == p.2)

/-! ## Header (src/protocol/header.rs)

Flag bytes are composed of contiguous bit fields, so the mask-and-shift
reads translate to `/` and `%` on the `u8` value: for a byte `x < 256`,
`x & 0x80 == 0x80` iff `128 ≤ x`; `(x & 0x78) >> 3 = x / 8 % 16`;
`x & 0x04 == 0x04` iff `x / 4 % 2 = 1`; `(x & 0x70) >> 4 = x / 16 % 8`;
`x & 0x0f = x % 16`.  On emission the source ORs left-shifted fields
together; opcode, z and rcode always hold values that fit their fields
(they only ever come from the masked reads above or from the fixed
constructors), so the OR is addition of the disjoint summands below. -/

/-- RCODE enum (header.rs `pub_map_enum! Rcode`). -/
inductive Rcode where
  | noError
  | formatError
  | servFail
  | nameError
  | notImpl
  | refused
  | reserved (x : Nat)
deriving DecidableEq, Repr

/-- `From<u8> for Rcode`. -/
def Rcode.ofNat (x : Nat) : Rcode :=
  if x = 0 then .noError else if x = 1 then .formatError else if x = 2 then .servFail
  else if x = 3 then .nameError else if x = 4 then .notImpl else if x = 5 then .refused
  else .reserved x

/-- `From<Rcode> for u8`. -/
def Rcode.toNat : Rcode → Nat
  | .noError => 0
  | .formatError => 1
  | .servFail => 2
  | .nameError => 3
  | .notImpl => 4
  | .refused => 5
  | .reserved x => x

/-- DNS header (header.rs lines 25-52); the bookkeeping-free fields only. -/
structure Header where
  id : Nat
  isQuery : Bool
  opcode : Op
  isAuth : Bool
  isTrunc : Bool
  isRecDes : Bool
  isRecAvl : Bool
  z : Nat
  response : Rcode
  questions : Nat
  answers : Nat
  authorities : Nat
  additional : Nat
deriving DecidableEq, Repr

/-- `Header::new_query` (header.rs lines 55-71). -/
def Header.newQuery (id : Nat) : Header :=
  ⟨id, true, .query, false, false, true, false, 0, .noError, 1, 0, 0, 0⟩

/-- `Header::new_answer` (header.rs lines 73-89). -/
def Header.newAnswer (id answers authorities additional : Nat) : Header :=
  ⟨id, false, .query, false, false, true, true, 0, .noError, 0, answers, authorities, additional⟩

/-- `Header::new_failure` (header.rs lines 91-114): maps the `PacketError`
to the response RCODE, zeroes everything else. -/
def Header.newFailure (id : Nat) (error : PacketError) : Header :=
  let rcode : Rcode :=
    match error with
    | .formatError => .formatError
    | .servFail => .servFail
    | .nameError _ => .nameError
    | .notImpl _ => .notImpl
    | .refused _ => .refused
  ⟨id, false, .query, false, false, false, false, 0, rcode, 0, 0, 0, 0⟩

/-- `Header::parse` (header.rs lines 216-274).  Note that after the initial
length check (the only place `pos` is used) every field is read from the
START of the buffer: the source does `let mut buf = packet;` and then reads
`buf.get_u16()` etc. without advancing to `pos` first. -/
def Header.parse (packet : Bytes) (pos : Nat) : Except TransactionError Header :=
  if packet.length - pos < 12 then .error ⟨none, .formatError⟩
  else
    let id := getU16 packet 0
    let a := byteAt packet 2
    let isQuery : Bool := decide (a < 128)        -- a & QR_MASK != QR_MASK
    let isAuth : Bool := a / 4 % 2 == 1           -- a & AA_MASK == AA_MASK
    let opcode := Op.ofNat (a / 8 % 16)           -- (a & OP_MASK) >> 3
    let isTrunc : Bool := a / 2 % 2 == 1          -- a & TC_MASK == TC_MASK
    let isRecDes : Bool := a % 2 == 1             -- a & RD_MASK == RD_MASK
    let b := byteAt packet 3
    let isRecAvl : Bool := decide (128 ≤ b)       -- b & RA_MASK == RA_MASK
    let z := b / 16 % 8                           -- (b & Z_MASK) >> 4
    let response := Rcode.ofNat (b % 16)          -- b & RC_MASK
    let questions := getU16 packet 4
    if questions > 1 then .error ⟨some id, .servFail⟩
    else
      .ok ⟨id, isQuery, opcode, isAuth, isTrunc, isRecDes, isRecAvl, z, response,
           questions, getU16 packet 6, getU16 packet 8, getU16 packet 10⟩

/-- `Header::parse_stream` (header.rs lines 276-348): sequential reads from
an async byte source, each failed read reported as `FormatError` (with the
id once it has been read).  The `questions > 1` rejection also uses the
`FormatError` value prepared at the top of the function (line 280), unlike
`Header::parse` which uses `ServFail`.  Returns the rest of the stream. -/
def Header.parseStream (s : Bytes) : Except TransactionError (Header × Bytes) :=
  if s.length < 2 then .error ⟨none, .formatError⟩
  else
    let id := getU16 s 0
    if s.length < 3 then .error ⟨some id, .formatError⟩
    else
      let a := byteAt s 2
      if s.length < 4 then .error ⟨some id, .formatError⟩
      else
        let b := byteAt s 3
        if s.length < 6 then .error ⟨some id, .formatError⟩
        else
          let questions := getU16 s 4
          if questions > 1 then .error ⟨some id, .formatError⟩
          else if s.length < 8 then .error ⟨some id, .formatError⟩
          else if s.length < 10 then .error ⟨some id, .formatError⟩
          else if s.length < 12 then .error ⟨some id, .formatError⟩
          else
            .ok (⟨id, decide (a < 128), Op.ofNat (a / 8 % 16), a / 4 % 2 == 1,
                  a / 2 % 2 == 1, a % 2 == 1, decide (128 ≤ b), b / 16 % 8,
                  Rcode.ofNat (b % 16), questions, getU16 s 6, getU16 s 8, getU16 s 10⟩,
                 s.drop 12)

/-- `Header::try_into_bytes` (header.rs lines 350-373). -/
def Header.tryIntoBytes (h : Header) : Bytes :=
  let a := (cond h.isQuery 0 1) * 128 + Op.toNat h.opcode % 16 * 8 +
           (cond h.isAuth 1 0) * 4 + (cond h.isTrunc 1 0) * 2 + cond h.isRecDes 1 0
  let b := (cond h.isRecAvl 1 0) * 128 + h.z % 8 * 16 + Rcode.toNat h.response % 16
  putU16 h.id ++ [a, b] ++ putU16 h.questions ++ putU16 h.answers ++
    putU16 h.authorities ++ putU16 h.additional

/-! ## RR type and class enums (src/protocol/mod.rs `pub_map_enum!`) -/

/-- `RRType` (mod.rs lines 424-441). -/
inductive RRType where
  | a
  | ns
  | cname
  | soa
  | mb
  | mg
  | mr
  | null
  | wks
  | ptr
  | hinfo
  | minfo
  | mx
  | txt
  | aaaa
  | unknown (x : Nat)
deriving DecidableEq, Repr

/-- `From<u16> for RRType`. -/
def RRType.ofNat (x : Nat) : RRType :=
  if x = 1 then .a else if x = 2 then .ns else if x = 5 then .cname
  else if x = 6 then .soa else if x = 7 then .mb else if x = 8 then .mg
  else if x = 9 then .mr else if x = 10 then .null else if x = 11 then .wks
  else if x = 12 then .ptr else if x = 13 then .hinfo else if x = 14 then .minfo
  else if x = 15 then .mx else if x = 16 then .txt else if x = 28 then .aaaa
  else .unknown x

/-- `From<RRType> for u16`. -/
def RRType.toNat : RRType → Nat
  | .a => 1
  | .ns => 2
  | .cname => 5
  | .soa => 6
  | .mb => 7
  | .mg => 8
  | .mr => 9
  | .null => 10
  | .wks => 11
  | .ptr => 12
  | .hinfo => 13
  | .minfo => 14
  | .mx => 15
  | .txt => 16
  | .aaaa => 28
  | .unknown x => x

/-- `RRClass` (mod.rs lines 468-474); renamed `RRCls` because `class` is a
Lean keyword. -/
inductive RRCls where
  | reserved
  | internet
  | chaos
  | hesiod
  | unknown (x : Nat)
deriving DecidableEq, Repr

/-- `From<u16> for RRClass`. -/
def RRCls.ofNat (x : Nat) : RRCls :=
  if x = 0 then .reserved else if x = 1 then .internet
  else if x = 3 then .chaos else if x = 4 then .hesiod else .unknown x

/-- `From<RRClass> for u16`. -/
def RRCls.toNat : RRCls → Nat
  | .reserved => 0
  | .internet => 1
  | .chaos => 3
  | .hesiod => 4
  | .unknown x => x

/-! ## Question (src/protocol/question.rs) -/

/-- A question, without the `size` bookkeeping field (the parser below
returns the end offset instead, which carries the same information:
`size = end - pos`). -/
structure Question where
  name : Name
  ty : RRType
  cls : RRCls
deriving DecidableEq, Repr

/-- `Question::parse` (question.rs lines 47-63): name, then type and class
as u16 reads at the name end.  Returns the question and its end offset. -/
def Question.parse (packet : Bytes) (pos : Nat) :
    Except PacketError (Question × Nat) := do
  let (name, en) ← Name.parse packet pos
  .ok (⟨name, RRType.ofNat (getU16 packet en), RRCls.ofNat (getU16 packet (en + 2))⟩, en + 4)

/-- `Question::into_bytes` (question.rs lines 65-71). -/
def Question.intoBytes (q : Question) : Bytes :=
  q.name.asBytesUncompressed ++ putU16 (RRType.toNat q.ty) ++ putU16 (RRCls.toNat q.cls)

/-! ## Rdata variants (src/protocol/rr/rdata/) -/

/-- A record payload (rdata/a.rs). -/
structure A where
  addr : Nat
deriving DecidableEq, Repr

/-- `A::parse` (a.rs): RDLENGTH must be 4, then one u32. -/
def A.parse (packet : Bytes) (pos : Nat) : Except PacketError (A × Nat) :=
  if pos + 6 > packet.length then .error .formatError
  else if getU16 packet pos ≠ 4 then .error .formatError
  else .ok (⟨getU32 packet (pos + 2)⟩, pos + 6)

/-- `A::try_into_bytes` (a.rs). -/
def A.tryIntoBytes (v : A) : Except PacketError Bytes :=
  .ok (putU16 4 ++ putU32 v.addr)

/-- AAAA record payload (rdata/aaaa.rs). -/
structure Aaaa where
  addr : Nat
deriving DecidableEq, Repr

/-- `Aaaa::parse` (aaaa.rs): RDLENGTH must be 16, then one u128. -/
def Aaaa.parse (packet : Bytes) (pos : Nat) : Except PacketError (Aaaa × Nat) :=
  if pos + 18 > packet.length then .error .formatError
  else if getU16 packet pos ≠ 16 then .error .formatError
  else .ok (⟨getU128 packet (pos + 2)⟩, pos + 18)

/-- `Aaaa::try_into_bytes` (aaaa.rs). -/
def Aaaa.tryIntoBytes (v : Aaaa) : Except PacketError Bytes :=
  .ok (putU16 16 ++ putU128 v.addr)

/-- Shared shape of `Cname::parse`, `Ptr::parse`, `Mb::parse` and
`Mr::parse`, whose bodies are token-identical in the source (cname.rs,
pt.rs, mb.rs, mr.rs): read RDLENGTH at `pos`, parse one `Name` at
`pos + 2`, and require the name to end exactly at `pos + 2 + RDLENGTH`. -/
def parseDomainRdata (packet : Bytes) (pos : Nat) : Except PacketError (Name × Nat) := do
  if pos + 4 > packet.length then .error .formatError
  else if pos + 1 ≥ packet.length then .error .formatError
  else
    let en := getU16 packet pos + (pos + 2)
    let (domain, domainEnd) ← Name.parse packet (pos + 2)
    if en = domainEnd then .ok (domain, en) else .error .formatError

/-- Shared shape of the `try_into_bytes` of the single-name rdata variants:
RDLENGTH = encoded name length (`try_into_rdata_length` fails with
`ServFail` if it does not fit u16), then the uncompressed name. -/
def domainRdataBytes (domain : Name) : Except PacketError Bytes :=
  let v := domain.asBytesUncompressed
  if v.length > 65535 then .error .servFail
  else .ok (putU16 v.length ++ v)

/-- CNAME record payload (rdata/cname.rs). -/
structure Cname where
  domain : Name
deriving DecidableEq, Repr

/-- `Cname::parse` (cname.rs lines 20-44). -/
def Cname.parse (packet : Bytes) (pos : Nat) : Except PacketError (Cname × Nat) :=
  (parseDomainRdata packet pos).map (fun r => (⟨r.1⟩, r.2))

/-- `Cname::try_into_bytes` (cname.rs lines 46-53). -/
def Cname.tryIntoBytes (v : Cname) : Except PacketError Bytes := domainRdataBytes v.domain

/-- PTR record payload (rdata/pt.rs). -/
structure Ptr where
  domain : Name
deriving DecidableEq, Repr

/-- `Ptr::parse` (pt.rs). -/
def Ptr.parse (packet : Bytes) (pos : Nat) : Except PacketError (Ptr × Nat) :=
  (parseDomainRdata packet pos).map (fun r => (⟨r.1⟩, r.2))

/-- `Ptr::try_into_bytes` (pt.rs). -/
def Ptr.tryIntoBytes (v : Ptr) : Except PacketError Bytes := domainRdataBytes v.domain

/-- MB record payload (rdata/mb.rs). -/
structure Mb where
  domain : Name
deriving DecidableEq, Repr

/-- `Mb::parse` (mb.rs). -/
def Mb.parse (packet : Bytes) (pos : Nat) : Except PacketError (Mb × Nat) :=
  (parseDomainRdata packet pos).map (fun r => (⟨r.1⟩, r.2))

/-- `Mb::try_into_bytes` (mb.rs). -/
def Mb.tryIntoBytes (v : Mb) : Except PacketError Bytes := domainRdataBytes v.domain

/-- MR record payload (rdata/mr.rs). -/
structure Mr where
  domain : Name
deriving DecidableEq, Repr

/-- `Mr::parse` (mr.rs). -/
def Mr.parse (packet : Bytes) (pos : Nat) : Except PacketError (Mr × Nat) :=
  (parseDomainRdata packet pos).map (fun r => (⟨r.1⟩, r.2))

/-- `Mr::try_into_bytes` (mr.rs). -/
def Mr.tryIntoBytes (v : Mr) : Except PacketError Bytes := domainRdataBytes v.domain

/-- MG record payload.  Modelled from the spec: the file rdata/mg.rs is
declared in rdata/mod.rs (`pub mod mg;`, used as `mg::Mg`) but missing from
the sources; per spec section 4.1, MG rdata is `RDLENGTH bytes consist of
exactly one Name; the name's end offset must equal rdata_end, else
FormatError`, i.e. the same shape as CNAME / PTR / MB / MR. -/
structure Mg where
  domain : Name
deriving DecidableEq, Repr

/-- Modelled from the spec: `Mg::parse`, same shape as `Cname::parse`
(missing rdata/mg.rs; spec section 4.1). -/
def Mg.parse (packet : Bytes) (pos : Nat) : Except PacketError (Mg × Nat) :=
  (parseDomainRdata packet pos).map (fun r => (⟨r.1⟩, r.2))

/-- Modelled from the spec: `Mg::try_into_bytes`, RDLENGTH then the
uncompressed name (missing rdata/mg.rs; spec section 4.1). -/
def Mg.tryIntoBytes (v : Mg) : Except PacketError Bytes := domainRdataBytes v.domain

/-- NS record payload (rdata/ns.rs). -/
structure Ns where
  domain : Name
deriving DecidableEq, Repr

/-- `Ns::parse` (ns.rs lines 19-38).  Unlike its siblings, the source reads
the RDLENGTH from the START of the packet: `let mut p = packet.clone();
let length = p.get_u16() as usize;` without advancing to `pos` first. -/
def Ns.parse (packet : Bytes) (pos : Nat) : Except PacketError (Ns × Nat) := do
  if pos + 4 > packet.length then .error .formatError
  else
    let length := getU16 packet 0
    let en := pos + 2 + length
    let (domain, domainEnd) ← Name.parse packet (pos + 2)
    if domainEnd = en then .ok (⟨domain⟩, en) else .error .formatError

/-- `Ns::try_into_bytes` (ns.rs lines 40-48). -/
def Ns.tryIntoBytes (v : Ns) : Except PacketError Bytes := domainRdataBytes v.domain

/-- MX record payload (rdata/mx.rs). -/
structure Mx where
  preference : Nat
  domain : Name
deriving DecidableEq, Repr

/-- `Mx::parse` (mx.rs lines 27-48). -/
def Mx.parse (packet : Bytes) (pos : Nat) : Except PacketError (Mx × Nat) := do
  if pos + 6 > packet.length then .error .formatError
  else
    let length := getU16 packet pos
    let preference := getU16 packet (pos + 2)
    let en := length + pos + 2
    let (domain, domainEnd) ← Name.parse packet (pos + 4)
    if domainEnd = en then .ok (⟨preference, domain⟩, en) else .error .formatError

/-- `Mx::try_into_bytes` (mx.rs lines 50-61): RDLENGTH = name length + 2. -/
def Mx.tryIntoBytes (v : Mx) : Except PacketError Bytes :=
  let w := v.domain.asBytesUncompressed
  if w.length > 65535 then .error .servFail
  else .ok (putU16 (w.length + 2) ++ putU16 (v.preference % 65536) ++ w)

/-- SOA record payload (rdata/soa.rs; the source struct is named `SOA`). -/
structure Soa where
  mname : Name
  rname : Name
  serial : Nat
  refresh : Nat
  retry : Nat
  expires : Nat
  minimum : Nat
deriving DecidableEq, Repr

/-- `SOA::parse` (soa.rs lines 20-63). -/
def Soa.parse (packet : Bytes) (pos : Nat) : Except PacketError (Soa × Nat) := do
  if pos + 26 > packet.length then .error .formatError
  else
    let length := getU16 packet pos
    let (mname, mEnd) ← Name.parse packet (pos + 2)
    let (rname, rEnd) ← Name.parse packet mEnd
    if rEnd + 20 > packet.length then .error .formatError
    else
      let en := rEnd + 20
      if en - (pos + 2) ≠ length then .error .formatError
      else
        .ok (⟨mname, rname, getU32 packet rEnd, getU32 packet (rEnd + 4),
              getU32 packet (rEnd + 8), getU32 packet (rEnd + 12),
              getU32 packet (rEnd + 16)⟩, en)

/-- `SOA::to_bytes` (soa.rs lines 66-82; the source names this `to_bytes`
although the trait expects `try_into_bytes`). -/
def Soa.tryIntoBytes (v : Soa) : Except PacketError Bytes :=
  let m := v.mname.asBytesUncompressed
  let r := v.rname.asBytesUncompressed
  let length := m.length + r.length + 20
  if length > 65535 then .error .servFail
  else
    .ok (putU16 length ++ m ++ r ++ putU32 v.serial ++ putU32 v.refresh ++
         putU32 v.retry ++ putU32 v.expires ++ putU32 v.minimum)

/-- HINFO record payload (rdata/hinfo.rs). -/
structure HInfo where
  cpu : Bytes
  os : Bytes
deriving DecidableEq, Repr

/-- `HInfo::parse` (hinfo.rs lines 12-40).  The source slices the CPU bytes
without advancing the cursor past them, so the next `get_u8` (meant to be
the OS length) actually reads the byte right after the CPU length byte;
the u8 sums in the two bound checks wrap at 256. -/
def HInfo.parse (packet : Bytes) (pos : Nat) : Except PacketError (HInfo × Nat) :=
  if pos + 4 > packet.length then .error .formatError
  else
    let rdlen := getU16 packet pos
    let en := pos + 2 + rdlen
    if en > packet.length then .error .formatError
    else
      let cLen := byteAt packet (pos + 2)
      if (cLen + 1) % 256 ≥ rdlen then .error .formatError
      else
        let cpu := sliceBytes packet (pos + 3) cLen
        let oLen := byteAt packet (pos + 3)
        if (cLen + 1 + oLen + 1) % 256 > rdlen then .error .formatError
        else .ok (⟨cpu, sliceBytes packet (pos + 4) oLen⟩, en)

/-- `HInfo::try_into_bytes` (hinfo.rs lines 42-53); the length check here
reports `FormatError`. -/
def HInfo.tryIntoBytes (v : HInfo) : Except PacketError Bytes :=
  let totalLen := v.cpu.length + v.os.length + 2
  if totalLen > 65535 then .error .formatError
  else
    .ok (putU16 totalLen ++ [v.cpu.length % 256] ++ v.cpu ++ [v.os.length % 256] ++ v.os)

/-- MINFO record payload (rdata/minfo.rs). -/
structure MInfo where
  rMailBox : Name
  eMailBox : Name
deriving DecidableEq, Repr

/-- `MInfo::parse` (minfo.rs lines 12-33): skips the RDLENGTH (2 bytes)
without checking it, then parses two names back to back. -/
def MInfo.parse (packet : Bytes) (pos : Nat) : Except PacketError (MInfo × Nat) := do
  if pos + 2 > packet.length then .error .formatError
  else
    let (rMailBox, mEnd) ← Name.parse packet (pos + 2)
    let (eMailBox, en) ← Name.parse packet mEnd
    .ok (⟨rMailBox, eMailBox⟩, en)

/-- `MInfo::try_into_bytes` (minfo.rs lines 35-44); the RDLENGTH is the
`as u16` cast of the summed name lengths, hence `% 65536`. -/
def MInfo.tryIntoBytes (v : MInfo) : Except PacketError Bytes :=
  let n1 := v.rMailBox.asBytesUncompressed
  let n2 := v.eMailBox.asBytesUncompressed
  .ok (putU16 ((n1.length + n2.length) % 65536) ++ n1 ++ n2)

/-- TXT record payload (rdata/txt.rs). -/
structure Txt where
  text : List Bytes
deriving DecidableEq, Repr

/-- The chunk loop of `Txt::parse` (txt.rs): while fewer than `len` bytes
are accounted for, read a length byte at cursor `i` and slice that many
bytes after it. -/
def txtLoop (packet : Bytes) (i read len : Nat) : List Bytes :=
  if read < len then
    let mLen := byteAt packet i
    sliceBytes packet (i + 1) mLen :: txtLoop packet (i + 1 + mLen) (read + mLen + 1) len
  else []
termination_by len - read

/-- `Txt::parse` (txt.rs lines 14-38). -/
def Txt.parse (packet : Bytes) (pos : Nat) : Except PacketError (Txt × Nat) :=
  if pos + 2 > packet.length then .error .formatError
  else
    let len := getU16 packet pos
    if pos + 2 + len > packet.length then .error .formatError
    else .ok (⟨txtLoop packet (pos + 2) 0 len⟩, pos + 2 + len)

/-- `Txt::try_into_bytes` (txt.rs lines 40-53): RDLENGTH via `u16::try_from`
(fails with `FormatError`), then per chunk an `as u8` length byte and the
chunk bytes. -/
def Txt.tryIntoBytes (v : Txt) : Except PacketError Bytes :=
  let totalLen := v.text.foldl (fun acc t => acc + t.length + 1) 0
  if totalLen > 65535 then .error .formatError
  else .ok (putU16 totalLen ++ v.text.flatMap (fun t => t.length % 256 :: t))

/-- WKS record payload (rdata/wks.rs). -/
structure Wks where
  addr : Nat
  proto : Nat
  bmp : Bytes
deriving DecidableEq, Repr

/-- `Wks::parse` (wks.rs lines 13-37); `rdata_length -= 5` is usize
subtraction that underflows (panics) for RDLENGTH < 5, here truncated. -/
def Wks.parse (packet : Bytes) (pos : Nat) : Except PacketError (Wks × Nat) :=
  if pos + 7 > packet.length then .error .formatError
  else if pos + 2 ≥ packet.length then .error .formatError
  else
    let rdlen := getU16 packet pos
    let en := rdlen + pos + 2
    .ok (⟨getU32 packet (pos + 2), byteAt packet (pos + 6), sliceBytes packet (pos + 7) (rdlen - 5)⟩, en)

/-- `Wks::try_into_bytes` (wks.rs lines 39-46): writes address, protocol and
bitmap only, with NO leading RDLENGTH, unlike every other variant. -/
def Wks.tryIntoBytes (v : Wks) : Except PacketError Bytes :=
  .ok (putU32 v.addr ++ [v.proto % 256] ++ v.bmp)

/-- NULL record payload (rdata/nl.rs). -/
structure Null where
  data : Bytes
deriving DecidableEq, Repr

/-- `Null::parse` (nl.rs lines 11-29); note the entry check is
`pos + 2 >= packet.len()`, so a NULL rdata with empty payload sitting at
the very end of a packet is rejected. -/
def Null.parse (packet : Bytes) (pos : Nat) : Except PacketError (Null × Nat) :=
  if pos + 2 ≥ packet.length then .error .formatError
  else
    let len := getU16 packet pos
    .ok (⟨sliceBytes packet (pos + 2) len⟩, len + pos + 2)

/-- `Null::try_into_bytes` (nl.rs lines 31-37); length as a `u16` cast. -/
def Null.tryIntoBytes (v : Null) : Except PacketError Bytes :=
  .ok (putU16 (v.data.length % 65536) ++ v.data)

/-- Unknown record payload (rdata/unknown.rs). -/
structure Unknown where
  rtype : RRType
  length : Nat
  data : Bytes
deriving DecidableEq, Repr

/-- `Unknown::parse_typeless` (unknown.rs lines 23-37): like `Ns::parse`,
the source reads the length from the START of the packet (`let mut p =
packet; let length = p.get_u16()` without advancing to `pos`) and slices
the data right after it; `pos` is only used for the returned end offset.
The type is set to `UNKNOWN(255)` and later overwritten by `set_type`. -/
def Unknown.parseTypeless (packet : Bytes) (pos : Nat) :
    Except PacketError (Unknown × Nat) :=
  let length := getU16 packet 0
  .ok (⟨.unknown 255, length, sliceBytes packet 2 length⟩, pos + 2 + length)

/-- `Unknown::try_into_bytes` (unknown.rs lines 73-78). -/
def Unknown.tryIntoBytes (v : Unknown) : Except PacketError Bytes :=
  .ok (putU16 (v.length % 65536) ++ v.data)

/-! ## RR (src/protocol/rr/mod.rs) -/

/-- `RRData` (rr/mod.rs lines 93-110). -/
inductive RRData where
  | a (v : A)
  | aaaa (v : Aaaa)
  | cname (v : Cname)
  | hinfo (v : HInfo)
  | ptr (v : Ptr)
  | mx (v : Mx)
  | mb (v : Mb)
  | mg (v : Mg)
  | mr (v : Mr)
  | wks (v : Wks)
  | null (v : Null)
  | minfo (v : MInfo)
  | ns (v : Ns)
  | soa (v : Soa)
  | txt (v : Txt)
  | unknown (v : Unknown)
deriving DecidableEq, Repr

/-- `RRData::get_type` (rr/mod.rs lines 113-132). -/
def RRData.getType : RRData → RRType
  | .a _ => .a
  | .aaaa _ => .aaaa
  | .cname _ => .cname
  | .mx _ => .mx
  | .ns _ => .ns
  | .mb _ => .mb
  | .mg _ => .mg
  | .soa _ => .soa
  | .txt _ => .txt
  | .wks _ => .wks
  | .ptr _ => .ptr
  | .mr _ => .mr
  | .minfo _ => .minfo
  | .hinfo _ => .hinfo
  | .null _ => .null
  | .unknown u => u.rtype

/-- `RRData::try_into_bytes` (rr/mod.rs lines 133-152). -/
def RRData.tryIntoBytes : RRData → Except PacketError Bytes
  | .a v => v.tryIntoBytes
  | .aaaa v => v.tryIntoBytes
  | .cname v => v.tryIntoBytes
  | .mx v => v.tryIntoBytes
  | .mb v => v.tryIntoBytes
  | .mg v => v.tryIntoBytes
  | .ns v => v.tryIntoBytes
  | .soa v => v.tryIntoBytes
  | .ptr v => v.tryIntoBytes
  | .mr v => v.tryIntoBytes
  | .wks v => v.tryIntoBytes
  | .minfo v => v.tryIntoBytes
  | .hinfo v => v.tryIntoBytes
  | .null v => v.tryIntoBytes
  | .txt v => v.tryIntoBytes
  | .unknown v => v.tryIntoBytes

/-- `rdata_parse` (rr/mod.rs lines 156-180): dispatch on the RRType; an
unknown type code goes through `Unknown::parse_typeless` followed by
`set_type`. -/
def rdataParse (ty : RRType) (packet : Bytes) (offset : Nat) :
    Except PacketError (RRData × Nat) :=
  match ty with
  | .a => (A.parse packet offset).map (fun r => (.a r.1, r.2))
  | .aaaa => (Aaaa.parse packet offset).map (fun r => (.aaaa r.1, r.2))
  | .ns => (Ns.parse packet offset).map (fun r => (.ns r.1, r.2))
  | .cname => (Cname.parse packet offset).map (fun r => (.cname r.1, r.2))
  | .mb => (Mb.parse packet offset).map (fun r => (.mb r.1, r.2))
  | .mg => (Mg.parse packet offset).map (fun r => (.mg r.1, r.2))
  | .mr => (Mr.parse packet offset).map (fun r => (.mr r.1, r.2))
  | .minfo => (MInfo.parse packet offset).map (fun r => (.minfo r.1, r.2))
  | .hinfo => (HInfo.parse packet offset).map (fun r => (.hinfo r.1, r.2))
  | .null => (Null.parse packet offset).map (fun r => (.null r.1, r.2))
  | .ptr => (Ptr.parse packet offset).map (fun r => (.ptr r.1, r.2))
  | .wks => (Wks.parse packet offset).map (fun r => (.wks r.1, r.2))
  | .soa => (Soa.parse packet offset).map (fun r => (.soa r.1, r.2))
  | .txt => (Txt.parse packet offset).map (fun r => (.txt r.1, r.2))
  | .mx => (Mx.parse packet offset).map (fun r => (.mx r.1, r.2))
  | .unknown x =>
    (Unknown.parseTypeless packet offset).map (fun r => (.unknown { r.1 with rtype := .unknown x }, r.2))

/-- Resource record (rr/mod.rs lines 48-56), without the `size` bookkeeping
field (the parser returns the end offset instead: `size = end - pos`). -/
structure RR where
  domain : Name
  ttl : Nat
  ty : RRType
  cls : RRCls
  rdata : RRData
deriving DecidableEq, Repr

/-- `RR::get_ttl` in whole seconds (rr/mod.rs lines 80-82). -/
def RR.getTtl (rr : RR) : Nat := rr.ttl

/-- `RR::set_ttl` (rr/mod.rs lines 83-85); `as_secs() as u32` wraps. -/
def RR.setTtl (rr : RR) (t : Nat) : RR := { rr with ttl := t % 4294967296 }

/-- `RR::parse` (rr/mod.rs lines 188-210): name, u16 type, u16 class,
u32 TTL, then the rdata parser at `name_end + 8`. -/
def RR.parse (packet : Bytes) (pos : Nat) : Except PacketError (RR × Nat) := do
  let (domain, nameEnd) ← Name.parse packet pos
  let ty := RRType.ofNat (getU16 packet nameEnd)
  let cls := RRCls.ofNat (getU16 packet (nameEnd + 2))
  let ttl := getU32 packet (nameEnd + 4)
  let (rdata, rdataEnd) ← rdataParse ty packet (nameEnd + 8)
  .ok (⟨domain, ttl, ty, cls, rdata⟩, rdataEnd)

/-- `RR::into_bytes` (rr/mod.rs lines 212-221). -/
def RR.intoBytes (rr : RR) : Except PacketError Bytes := do
  let rd ← rr.rdata.tryIntoBytes
  .ok (rr.domain.asBytesUncompressed ++ putU16 (RRType.toNat rr.ty) ++
       putU16 (RRCls.toNat rr.cls) ++ putU32 rr.ttl ++ rd)

/-! ## Packet (src/protocol/mod.rs) -/

/-- `Packet` (mod.rs lines 32-38). -/
structure Packet where
  header : Header
  question : Option Question
  answers : List RR
  authorities : List RR
  additions : List RR
deriving DecidableEq, Repr

/-- `Packet::new_plain_answer` (mod.rs lines 42-51). -/
def Packet.newPlainAnswer (id : Nat) : Packet :=
  ⟨Header.newAnswer id 0 0 0, none, [], [], []⟩

/-- `Packet::new_query` (mod.rs lines 53-62). -/
def Packet.newQuery (id : Nat) (query : Question) : Packet :=
  ⟨Header.newQuery id, some query, [], [], []⟩

/-- `Packet::new_failure` (mod.rs lines 215-224). -/
def Packet.newFailure (id : Nat) (rcode : PacketError) : Packet :=
  ⟨Header.newFailure id rcode, none, [], [], []⟩

/-- The question loop of `Packet::parse_packet` (mod.rs lines 89-94): parse
`count` questions starting at `offset`, each overwriting the previous one,
advancing by each question size. -/
def questionLoop (packet : Bytes) : Nat → Nat → Option Question →
    Except PacketError (Option Question × Nat)
  | 0, offset, acc => .ok (acc, offset)
  | k + 1, offset, _ => do
    let (q, en) ← Question.parse packet offset
    questionLoop packet k en (some q)

/-- The record loops of `Packet::parse_packet` (mod.rs lines 95-114): parse
`count` RRs starting at `offset`, appending to `acc`. -/
def rrLoop (packet : Bytes) : Nat → Nat → List RR →
    Except PacketError (List RR × Nat)
  | 0, offset, acc => .ok (acc, offset)
  | k + 1, offset, acc => do
    let (rr, en) ← RR.parse packet offset
    rrLoop packet k en (acc ++ [rr])

/-- `Packet::parse_packet` (mod.rs lines 65-123). -/
def Packet.parsePacket (packet : Bytes) (offset : Nat) :
    Except TransactionError Packet := do
  let h ← Header.parse packet offset
  let id := some h.id
  if h.isQuery ∧ h.answers ≠ 0 then .error ⟨id, .formatError⟩
  else do
    let (question, o1) ← (questionLoop packet h.questions (offset + 12) none).mapError (⟨id, ·⟩)
    let (answers, o2) ← (rrLoop packet h.answers o1 []).mapError (⟨id, ·⟩)
    let (authorities, o3) ← (rrLoop packet h.authorities o2 []).mapError (⟨id, ·⟩)
    let (additions, _) ← (rrLoop packet h.additional o3 []).mapError (⟨id, ·⟩)
    .ok ⟨h, question, answers, authorities, additions⟩

/-- `Packet::into_bytes` (mod.rs lines 228-250): header bytes, question
bytes if present, then every RR; the source `unwrap()`s each fallible
emission, modelled as `none` (a Rust panic). -/
def Packet.intoBytes (p : Packet) : Option Bytes := do
  let ans ← p.answers.mapM (fun rr => rr.intoBytes.toOption)
  let auth ← p.authorities.mapM (fun rr => rr.intoBytes.toOption)
  let add ← p.additions.mapM (fun rr => rr.intoBytes.toOption)
  some (p.header.tryIntoBytes ++
        (match p.question with | some q => q.intoBytes | none => []) ++
        ans.flatten ++ auth.flatten ++ add.flatten)

/-! ## Answers and the cache fill function (src/comm/mod.rs, src/cache/mod.rs) -/

/-- `Answer` (comm/mod.rs lines 31-37). -/
inductive Answer where
  | error (e : PacketError)
  | answer (rr : RR)
  | nameServer (rr : RR)
  | additional (rr : RR)
deriving DecidableEq, Repr

/-- `forward` (cache/mod.rs lines 69-120), as a function of the sequence of
answers received from the upstream channel.  It folds over the received
answers: a non-error answer is appended and lowers the running minimum TTL
(initially 600 s); the first error answer resets the TTL to 600 s, clears
the collected answers, keeps only the error, and breaks.  Returns the data
vector and the minimum TTL; the source then stores the pair
`(answers, ddl)` with `ddl = Instant::now() + min_ttl` in the cache
(`DnsCache::get` passes `forward(..)` to `cache.get_with_if`, which inserts
the produced value), so the second component is the deadline expressed as
seconds from now. -/
def forwardLoop : List Answer → Nat → List Answer → List Answer × Nat
  | [], minTtl, acc => (acc, minTtl)
  | .error e :: _, _, _ => ([.error e], 600)
  | .answer rr :: rest, minTtl, acc =>
    forwardLoop rest (if minTtl < rr.getTtl then minTtl else rr.getTtl) (acc ++ [.answer rr])
  | .nameServer rr :: rest, minTtl, acc =>
    forwardLoop rest (if minTtl < rr.getTtl then minTtl else rr.getTtl) (acc ++ [.nameServer rr])
  | .additional rr :: rest, minTtl, acc =>
    forwardLoop rest (if minTtl < rr.getTtl then minTtl else rr.getTtl) (acc ++ [.additional rr])

/-- `forward` entry: `min_ttl = 600 s`, empty accumulator. -/
def forward (received : List Answer) : List Answer × Nat :=
  forwardLoop received 600 []

/-- The TTL rewrite performed by `DnsCache::get` (cache/mod.rs lines
48-65) on a cached entry: every record answer gets `set_ttl(ddl - now)`,
error answers pass through unchanged.  `ttl` is the residual
`ddl - Instant::now()` in seconds. -/
def cacheGetRewrite (data : List Answer) (ttl : Nat) : List Answer :=
  data.map fun ans =>
    match ans with
    | .error e => .error e
    | .answer rr => .answer (rr.setTtl ttl)
    | .nameServer rr => .nameServer (rr.setTtl ttl)
    | .additional rr => .additional (rr.setTtl ttl)

/-! ## The UDP forwarder in-flight table (src/comm/mod.rs `run_forward`)

The table `mp : BTreeMap<u16, oneshot::Sender<Vec<Answer>>>` is abstracted
to the list of pending transaction ids; the mapped one-shot senders do not
affect which ids are present. -/

/-- The in-flight id table. -/
def Inflight := List Nat
deriving DecidableEq, Repr

/-- Table insert performed for a task before its query packet is handed to
the sending task (comm/mod.rs lines 127-131, `guard.insert(id, ..)`). -/
def Inflight.insert (t : Inflight) (id : Nat) : Inflight :=
  if (show List Nat from t).contains id then t else id :: t

/-- Membership in the table. -/
def Inflight.mem (t : Inflight) (id : Nat) : Bool :=
  (show List Nat from t).contains id

/-- The listener task on receiving a parsed upstream packet with
transaction id `id` (comm/mod.rs lines 92-97): `guard.remove(&id)`
removes the entry when present (and delivers the answers). -/
def Inflight.listenerDeliver (t : Inflight) (id : Nat) : Inflight :=
  (show List Nat from t).erase id

/-- The checker task after its 5-second timeout fires (comm/mod.rs lines
139-147): it sends `Answer::Error(ServFail)` to the answer channel and
returns.  The closure does not capture `mp` at all, so the table is
unchanged. -/
def Inflight.checkerTimeout (t : Inflight) : Inflight := t

/-- The operations `run_forward` performs for one task, in order
(comm/mod.rs lines 119-137): the id is inserted into the in-flight table
(under the lock, lines 127-131) BEFORE the serialized query packet is sent
to the forwarding task (line 137). -/
inductive ForwardOp where
  | insertInflight (id : Nat)
  | emitQuery (id : Nat)
deriving DecidableEq, Repr

/-- Per-task operation sequence of `run_forward`. -/
def runForwardTaskOps (id : Nat) : List ForwardOp :=
  [.insertInflight id, .emitQuery id]

/-! ## The stream worker state machine (src/comm/stream/worker.rs)

One iteration of `Worker::run` (lines 75-187) is driven by the outcome of
`Packet::parse_stream` on the read half together with the results of the
writes the iteration performs.  Events:

* `shutdownSignal` - `checker.try_recv()` no longer returns `Empty`;
* `readEof` - parse error whose kind is `ServFail` (clean end of stream);
* `codecError writeOk` - any other parse error; `writeOk` is the result of
  writing the failure response (`stream_fail`);
* `nonQuery writeOk` - packet parsed but `!packet.is_query()`; `writeOk` is
  the result of writing the failure response;
* `query ansErr failWriteOk respWriteOk` - an accepted query; `ansErr`
  states whether an `Answer::Error` arrived while collecting answers,
  `failWriteOk` the result of the failure write in that case, and
  `respWriteOk` the result of writing the assembled response packet. -/
inductive WorkerEvent where
  | shutdownSignal
  | readEof
  | codecError (writeOk : Bool)
  | nonQuery (writeOk : Bool)
  | query (ansErr failWriteOk respWriteOk : Bool)
deriving DecidableEq, Repr

/-- Worker state between iterations: still reading with the given
`is_suspected` flag, or terminated. -/
inductive WorkerState where
  | running (isSuspected : Bool)
  | closed
deriving DecidableEq, Repr

/-- One iteration of `Worker::run` (worker.rs lines 75-187), given the
current `is_suspected` flag. -/
def workerStep (isSuspected : Bool) : WorkerEvent → WorkerState
  | .shutdownSignal => .closed
  | .readEof => .closed
  | .codecError writeOk =>
    -- lines 96-112: failure write, quit if it failed or already suspected,
    -- otherwise mark suspected and continue reading
    if !writeOk || isSuspected then .closed else .running true
  | .nonQuery writeOk =>
    -- lines 116-132: failure write, quit if it failed or already suspected;
    -- the flag is NOT changed on this path
    if !writeOk || isSuspected then .closed else .running isSuspected
  | .query ansErr failWriteOk respWriteOk =>
    -- line 135: the flag is cleared before dispatching; lines 145-186:
    -- an error answer triggers a failure write (quit if it fails), then the
    -- iteration falls through to writing the assembled response packet
    if ansErr && !failWriteOk then .closed
    else if !respWriteOk then .closed
    else .running false

/-- Run the worker over a sequence of iteration events, starting from the
given flag (`Worker::run` starts with `is_suspected = false`). -/
def runWorker : Bool → List WorkerEvent → WorkerState
  | s, [] => .running s
  | s, e :: es =>
    match workerStep s e with
    | .closed => .closed
    | .running s' => runWorker s' es

/-! ## Failure responses on stream transports (src/comm/stream/mod.rs) -/

/-- `stream_fail` (stream/mod.rs lines 35-46) builds the response packet it
writes: `Packet::new_failure(id.unwrap_or(0), error)`. -/
def streamFailPacket (err : TransactionError) : Packet :=
  Packet.newFailure (err.id.getD 0) err.error

/-! ## Spec-side and auxiliary definitions used by the theorems -/

/-- The first error answer of an upstream answer sequence, if any. -/
def firstErrorOf (l : List Answer) : Option PacketError :=
  l.findSome? fun a => match a with | .error e => some e | _ => none

/-- TTL of one answer (0 for an error answer; errors are excluded by the
hypotheses of the theorems using this). -/
def ttlOf : Answer → Nat
  | .error _ => 0
  | .answer rr => rr.getTtl
  | .nameServer rr => rr.getTtl
  | .additional rr => rr.getTtl

/-- Spec-side formula: `min(TTL_i)` across all records of a response
(spec section 4.2, "store all returned records with
deadline = now + min(TTL_i) across all records"); `none` for an empty
response. -/
def specMinTtl (l : List Answer) : Option Nat :=
  match l.map ttlOf with
  | [] => none
  | t :: ts => some (ts.foldl Nat.min t)

/-- Is this event a codec (parse) error? -/
def WorkerEvent.isCodec : WorkerEvent → Bool
  | .codecError _ => true
  | _ => false

/-- The events seen since the last accepted query packet (all of them when
no query was ever accepted). -/
def tailAfterLastQuery (evs : List WorkerEvent) : List WorkerEvent :=
  evs.foldl (fun acc e => match e with | .query _ _ _ => [] | _ => acc ++ [e]) []

/-! ### Well-formedness, i.e. the values representable by the Rust types
and produced by the constructors of the program (data model of spec
section 3), used to state the amended round-trip law. -/

/-- Encoded size of a label vector excluding the terminating zero:
one length byte plus the label bytes per label. -/
def encSize (ls : List Bytes) : Nat := ls.foldr (fun l acc => l.length + 1 + acc) 0

/-- Well-formed name per the data model (spec section 3): labels of 1-63
bytes of valid UTF-8 (a Rust label is a `String`), total encoded length at
most 253 counting the terminating zero, i.e. `encSize ≤ 252`. -/
def Name.wf (n : Name) : Bool :=
  n.labels.all (fun l => decide (1 ≤ l.length) && decide (l.length ≤ 63) && validUtf8 l) &&
  decide (encSize n.labels ≤ 252)

/-- Opcode values representable in the program: round-trips through the
u8 conversion and fits the 4-bit field (every `Op` in the program comes
from `(a & 0x78) >> 3` or from the constructors, which use `Query`). -/
def Op.canon (op : Op) : Bool := (Op.ofNat (Op.toNat op) == op) && decide (Op.toNat op < 16)

/-- Rcode values representable in the program (from `b & 0x0f` or the
constructors). -/
def Rcode.canon (rc : Rcode) : Bool :=
  (Rcode.ofNat (Rcode.toNat rc) == rc) && decide (Rcode.toNat rc < 16)

/-- RRType values representable in the program (from `RRType::from(u16)`). -/
def RRType.canon (t : RRType) : Bool :=
  (RRType.ofNat (RRType.toNat t) == t) && decide (RRType.toNat t < 65536)

/-- RRClass values representable in the program (from `RRClass::from(u16)`). -/
def RRCls.canon (c : RRCls) : Bool :=
  (RRCls.ofNat (RRCls.toNat c) == c) && decide (RRCls.toNat c < 65536)

/-- Well-formed header: field values representable by the Rust types and
reachable in the program (u16 id and counts; opcode, z, rcode fitting
their bit fields as produced by parsing or the constructors). -/
def Header.wf (h : Header) : Bool :=
  decide (h.id < 65536) && Op.canon h.opcode && decide (h.z < 8) && Rcode.canon h.response &&
  decide (h.questions < 65536) && decide (h.answers < 65536) &&
  decide (h.authorities < 65536) && decide (h.additional < 65536)

/-- Well-formed rdata for the amended round-trip law.  The variants whose
parse or emit code has an offset or framing slip are excluded: NS and
Unknown read their RDLENGTH from the packet start, WKS emits no RDLENGTH,
and HINFO never advances the cursor past the CPU string.  The names inside
CNAME / PTR / MB / MG / MR / MX / SOA rdata must have at least one label:
the entry length guards of those parsers (`pos + 4 > len`, `pos + 6 > len`,
`pos + 26 > len`) overshoot for a root name when the record sits at the
very end of the packet. -/
def RRData.wf : RRData → Bool
  | .a v => decide (v.addr < 4294967296)
  | .aaaa v => decide (v.addr < 340282366920938463463374607431768211456)
  | .cname v => Name.wf v.domain && !v.domain.labels.isEmpty
  | .ptr v => Name.wf v.domain && !v.domain.labels.isEmpty
  | .mb v => Name.wf v.domain && !v.domain.labels.isEmpty
  | .mg v => Name.wf v.domain && !v.domain.labels.isEmpty
  | .mr v => Name.wf v.domain && !v.domain.labels.isEmpty
  | .mx v => decide (v.preference < 65536) && Name.wf v.domain && !v.domain.labels.isEmpty
  | .soa v =>
    Name.wf v.mname && !v.mname.labels.isEmpty &&
    Name.wf v.rname && !v.rname.labels.isEmpty && decide (v.serial < 4294967296) &&
    decide (v.refresh < 4294967296) && decide (v.retry < 4294967296) &&
    decide (v.expires < 4294967296) && decide (v.minimum < 4294967296)
  | .minfo v => Name.wf v.rMailBox && Name.wf v.eMailBox
  | .txt v =>
    v.text.all (fun t => decide (t.length ≤ 255)) &&
    decide (v.text.foldl (fun acc t => acc + t.length + 1) 0 ≤ 65535)
  | .null v => decide (1 ≤ v.data.length) && decide (v.data.length ≤ 65535)
  | .ns _ => false
  | .wks _ => false
  | .hinfo _ => false
  | .unknown _ => false

/-- Well-formed resource record: well-formed parts plus the invariant
`RR.ty == RRData.type()` maintained by `RR::new` and `RR::parse`. -/
def RR.wf (rr : RR) : Bool :=
  Name.wf rr.domain && decide (rr.ttl < 4294967296) && RRCls.canon rr.cls &&
  (rr.ty == rr.rdata.getType) && RRData.wf rr.rdata

/-- Well-formed question. -/
def Question.wf (q : Question) : Bool :=
  Name.wf q.name && RRType.canon q.ty && RRCls.canon q.cls

/-- Well-formed packet for the amended round-trip law: header counts equal
the collection lengths (the well-formedness stated by the claim), the
header does not claim a query carrying answers (rejected by design on
parse), and all parts are well-formed. -/
def Packet.wf (p : Packet) : Bool :=
  Header.wf p.header &&
  (p.header.questions == (match p.question with | some _ => 1 | none => 0)) &&
  (p.header.answers == p.answers.length) &&
  (p.header.authorities == p.authorities.length) &&
  (p.header.additional == p.additions.length) &&
  !(p.header.isQuery && p.answers.length != 0) &&
  (match p.question with | some q => Question.wf q | none => true) &&
  p.answers.all RR.wf && p.authorities.all RR.wf && p.additions.all RR.wf


/-- A packet that is well formed in the sense stated by claim C1 (its header
counts equal the lengths of the question, answer, authority and addition
collections): a query header carrying one answer record. -/
def c1CounterPacket : Packet :=
  ⟨⟨0, true, .query, false, false, true, false, 0, .noError, 0, 1, 0, 0⟩,
   none, [⟨⟨[]⟩, 600, .a, .internet, .a ⟨1⟩⟩], [], []⟩

/-- Concrete packet for the witness of the amended claim C1: an answer
packet carrying one question and one A record for example.com. -/
def c1WitnessPacket : Packet :=
  ⟨⟨3, false, .query, true, false, true, true, 0, .noError, 1, 1, 0, 0⟩,
   some ⟨⟨[[101, 120, 97, 109, 112, 108, 101], [99, 111, 109]]⟩, .a, .internet⟩,
   [⟨⟨[[101, 120, 97, 109, 112, 108, 101], [99, 111, 109]]⟩, 300, .a, .internet,
     .a ⟨321077276⟩⟩], [], []⟩


end TseinDNS

deriving instance DecidableEq for Except

namespace TseinDNS

/-! ## Helper lemmas -/

theorem zipAll_iff_take_eq (xs : List Bytes) :
    ∀ ys : List Bytes,
      (((xs.zip ys).all fun p => p.1 == p.2) = true ↔
        xs.take (min xs.length ys.length) = ys.take (min xs.length ys.length)) := by
  induction xs with
  | nil => intro ys; simp
  | cons x xs ih =>
    intro ys
    cases ys with
    | nil => simp
    | cons y ys =>
      simp only [List.zip_cons_cons, List.all_cons, List.length_cons,
        Nat.succ_min_succ, List.take_succ_cons, Bool.and_eq_true, beq_iff_eq,
        List.cons.injEq]
      exact and_congr Iff.rfl (ih ys)

theorem ifLt_eq_min (m t : Nat) : (if m < t then m else t) = Nat.min m t := by
  simp only [Nat.min_def]
  split <;> split <;> omega

theorem natMin_assoc (a b c : Nat) :
    Nat.min (Nat.min a b) c = Nat.min a (Nat.min b c) := by
  simp only [Nat.min_def]
  repeat' split
  all_goals omega

theorem foldl_min_shift (ts : List Nat) :
    ∀ a b : Nat, ts.foldl Nat.min (Nat.min a b) = Nat.min a (ts.foldl Nat.min b) := by
  induction ts with
  | nil => intro a b; rfl
  | cons c ts ih =>
    intro a b
    simp only [List.foldl_cons]
    rw [natMin_assoc, ih]

theorem forwardLoop_error (l : List Answer) :
    ∀ (minTtl : Nat) (acc : List Answer) (e : PacketError),
      firstErrorOf l = some e → forwardLoop l minTtl acc = ([.error e], 600) := by
  induction l with
  | nil => intro _ _ e h; simp [firstErrorOf] at h
  | cons a rest ih =>
    intro minTtl acc e h
    cases a with
    | error e' =>
      simp only [firstErrorOf, List.findSome?_cons] at h
      simp only [Option.some.injEq] at h
      subst h
      rfl
    | answer rr =>
      simp only [firstErrorOf, List.findSome?_cons] at h
      exact ih _ _ e h
    | nameServer rr =>
      simp only [firstErrorOf, List.findSome?_cons] at h
      exact ih _ _ e h
    | additional rr =>
      simp only [firstErrorOf, List.findSome?_cons] at h
      exact ih _ _ e h

theorem forwardLoop_min (l : List Answer) :
    ∀ (minTtl : Nat) (acc : List Answer),
      firstErrorOf l = none →
      (forwardLoop l minTtl acc).2 = (l.map ttlOf).foldl Nat.min minTtl := by
  induction l with
  | nil => intro _ _ _; rfl
  | cons a rest ih =>
    intro minTtl acc h
    cases a with
    | error e' => simp [firstErrorOf, List.findSome?_cons] at h
    | answer rr =>
      simp only [firstErrorOf, List.findSome?_cons] at h
      simp only [forwardLoop, List.map_cons, List.foldl_cons, ttlOf]
      rw [ih _ _ h, ifLt_eq_min]
    | nameServer rr =>
      simp only [firstErrorOf, List.findSome?_cons] at h
      simp only [forwardLoop, List.map_cons, List.foldl_cons, ttlOf]
      rw [ih _ _ h, ifLt_eq_min]
    | additional rr =>
      simp only [firstErrorOf, List.findSome?_cons] at h
      simp only [forwardLoop, List.map_cons, List.foldl_cons, ttlOf]
      rw [ih _ _ h, ifLt_eq_min]

/-! ## Claims C2 and C3: cache fill behaviour on errors and deadlines -/

/-- C2, counterexample: an upstream stream consisting of one error answer.
The fill function hands the cache the pair `([Error ServFail], 600 s)`,
which `get_with_if` inserts, so the cache does NOT store nothing: the error
answer itself is cached, and a later `DnsCache::get` for the same key
returns that cached error unchanged. -/
theorem c2_error_cached_counterexample :
    (forward [Answer.error PacketError.servFail]).1 ≠ [] ∧
    forward [Answer.error PacketError.servFail] = ([Answer.error PacketError.servFail], 600) ∧
    cacheGetRewrite (forward [Answer.error PacketError.servFail]).1 0 =
      [Answer.error PacketError.servFail] := by
  refine ⟨by decide, by decide, by decide⟩

/-- C2, amended: when the upstream answer stream contains an error answer,
the cache entry produced by the fill function is not empty: the collected
records are discarded and the single first error answer is stored with
deadline `now + 600 s`; a subsequent `get` for the key returns that error
answer. -/
theorem c2_error_caching_amended (l : List Answer) (e : PacketError)
    (h : firstErrorOf l = some e) :
    forward l = ([Answer.error e], 600) ∧
    (∀ ttl : Nat, cacheGetRewrite (forward l).1 ttl = [Answer.error e]) := by
  have hf := forwardLoop_error l 600 [] e h
  refine ⟨hf, fun ttl => ?_⟩
  show cacheGetRewrite (forwardLoop l 600 []).1 ttl = _
  rw [hf]
  rfl

/-- C2, witness for the amended theorem at a concrete stream holding one
record answer followed by an error. -/
theorem c2_error_caching_amended_witness :
    firstErrorOf [Answer.answer ⟨⟨[]⟩, 60, RRType.a, RRCls.internet, RRData.a ⟨7⟩⟩,
                  Answer.error PacketError.servFail] = some PacketError.servFail ∧
    forward [Answer.answer ⟨⟨[]⟩, 60, RRType.a, RRCls.internet, RRData.a ⟨7⟩⟩,
             Answer.error PacketError.servFail] = ([Answer.error PacketError.servFail], 600) :=
  ⟨by decide,
   (c2_error_caching_amended _ PacketError.servFail (by decide)).1⟩

/-- C3, counterexample: a single record with TTL 700 s.  The claim says the
deadline is `now + min(TTL_i) = now + 700 s`, but the fill function starts
its running minimum at 600 s, so the stored deadline is `now + 600 s`. -/
theorem c3_deadline_counterexample :
    (forward [Answer.answer ⟨⟨[]⟩, 700, RRType.a, RRCls.internet, RRData.a ⟨7⟩⟩]).2 = 600 ∧
    (RR.getTtl ⟨⟨[]⟩, 700, RRType.a, RRCls.internet, RRData.a ⟨7⟩⟩ = 700) := by
  refine ⟨by decide, by decide⟩

/-- C3, amended: for an error-free, non-empty upstream response the cache
deadline is `now + min(600 s, min(TTL_i))`: the minimum TTL across all
records, clamped from above by the 600-second default the fold starts
from. -/
theorem c3_deadline_amended (l : List Answer) (t : Nat)
    (hne : firstErrorOf l = none) (hmin : specMinTtl l = some t) :
    (forward l).2 = Nat.min 600 t := by
  show (forwardLoop l 600 []).2 = _
  rw [forwardLoop_min l 600 [] hne]
  unfold specMinTtl at hmin
  split at hmin
  · exact absurd hmin (by simp)
  · rename_i t0 ts heq
    simp only [Option.some.injEq] at hmin
    rw [heq, List.foldl_cons, ← hmin]
    exact foldl_min_shift ts 600 t0

/-- C3, witness for the amended theorem at a concrete one-record response
with TTL 700 s: the stored deadline offset is `min 600 700 = 600`. -/
theorem c3_deadline_amended_witness :
    firstErrorOf [Answer.answer ⟨⟨[]⟩, 700, RRType.a, RRCls.internet, RRData.a ⟨7⟩⟩] = none ∧
    specMinTtl [Answer.answer ⟨⟨[]⟩, 700, RRType.a, RRCls.internet, RRData.a ⟨7⟩⟩] = some 700 ∧
    (forward [Answer.answer ⟨⟨[]⟩, 700, RRType.a, RRCls.internet, RRData.a ⟨7⟩⟩]).2 =
      Nat.min 600 700 :=
  ⟨by decide, by decide,
   c3_deadline_amended _ 700 (by decide) (by decide)⟩

/-! ## Claim C4: the UDP in-flight table on timeout -/

/-- C4: in the UDP upstream adapter the in-flight entry is inserted before
the query is emitted (first conjunct), and a matching response removes it
(second conjunct); but when a forwarded query times out, the checker task
performs no table operation at all, so the entry minted for the query is
still present after the timeout (third conjunct), contradicting the claim
that the entry is removed on match OR timeout. -/
theorem c4_timeout_entry_remains :
    runForwardTaskOps 1 = [ForwardOp.insertInflight 1, ForwardOp.emitQuery 1] ∧
    Inflight.listenerDeliver (Inflight.insert [] 1) 1 = [] ∧
    Inflight.mem (Inflight.checkerTimeout (Inflight.insert [] 1)) 1 = true := by
  refine ⟨rfl, by decide, by decide⟩

/-! ## Claim C5: qdcount > 1 rejection -/

/-- C5, counterexample: a 12-byte header with qdcount = 2 (id = 7).
`Header::parse` rejects it with `ServFail` as the claim says, but
`Header::parse_stream` rejects it with `FormatError` (the error value
prepared at the top of the function for its read failures), not
`ServFail`. -/
theorem c5_qdcount_counterexample :
    Header.parse [0, 7, 0, 0, 0, 2, 0, 0, 0, 0, 0, 0] 0 =
      .error ⟨some 7, .servFail⟩ ∧
    Header.parseStream [0, 7, 0, 0, 0, 2, 0, 0, 0, 0, 0, 0] =
      .error ⟨some 7, .formatError⟩ ∧
    Header.parseStream [0, 7, 0, 0, 0, 2, 0, 0, 0, 0, 0, 0] ≠
      .error ⟨some 7, .servFail⟩ := by
  refine ⟨by decide, by decide, by decide⟩

/-- C5, amended: whenever the decoded qdcount field exceeds 1,
`Header::parse` fails with `ServFail` carrying the already-decoded id,
while the streaming variant `Header::parse_stream` performs the same
qdcount check but fails with `FormatError` (also carrying the id).
In `Header::parse` the qdcount sits at absolute offset 4 of the buffer
(fields are read from the buffer start; `pos` only enters the length
check). -/
theorem c5_qdcount_amended :
    (∀ (packet : Bytes) (pos : Nat), pos + 12 ≤ packet.length →
      getU16 packet 4 > 1 →
      Header.parse packet pos = .error ⟨some (getU16 packet 0), .servFail⟩) ∧
    (∀ s : Bytes, 6 ≤ s.length → getU16 s 4 > 1 →
      Header.parseStream s = .error ⟨some (getU16 s 0), .formatError⟩) := by
  constructor
  · intro packet pos hlen hq
    have h1 : ¬(packet.length - pos < 12) := by omega
    simp only [Header.parse, if_neg h1, if_pos hq]
  · intro s hlen hq
    have h2 : ¬(s.length < 2) := by omega
    have h3 : ¬(s.length < 3) := by omega
    have h4 : ¬(s.length < 4) := by omega
    have h6 : ¬(s.length < 6) := by omega
    simp only [Header.parseStream, if_neg h2, if_neg h3, if_neg h4, if_neg h6, if_pos hq]

/-- C5, witness for the amended theorem at the concrete qdcount = 2
header. -/
theorem c5_qdcount_amended_witness :
    Header.parse [0, 7, 0, 0, 0, 2, 0, 0, 0, 0, 0, 0] 0 =
      .error ⟨some (getU16 [0, 7, 0, 0, 0, 2, 0, 0, 0, 0, 0, 0] 0), .servFail⟩ ∧
    Header.parseStream [0, 7, 0, 0, 0, 2, 0, 0, 0, 0, 0, 0] =
      .error ⟨some (getU16 [0, 7, 0, 0, 0, 2, 0, 0, 0, 0, 0, 0] 0), .formatError⟩ :=
  ⟨c5_qdcount_amended.1 [0, 7, 0, 0, 0, 2, 0, 0, 0, 0, 0, 0] 0 (by decide) (by decide),
   c5_qdcount_amended.2 [0, 7, 0, 0, 0, 2, 0, 0, 0, 0, 0, 0] (by decide) (by decide)⟩

/-! ## Claim C7: parsing at an offset -/

/-- C7, counterexample: a buffer holding two back-to-back 12-byte messages
with different transaction ids (1 and 7).  Parsing the embedded second
message at offset 12 decodes the header from the FIRST 12 bytes of the
buffer (id 1), not from offset 12, so it differs from parsing the same
message at offset 0 (id 7). -/
theorem c7_offset_counterexample :
    (Packet.parsePacket
        ([0, 1, 1, 0, 0, 0, 0, 0, 0, 0, 0, 0] ++ [0, 7, 1, 0, 0, 0, 0, 0, 0, 0, 0, 0]) 12).map
        (fun p => p.header.id) = .ok 1 ∧
    (Packet.parsePacket [0, 7, 1, 0, 0, 0, 0, 0, 0, 0, 0, 0] 0).map
        (fun p => p.header.id) = .ok 7 ∧
    Packet.parsePacket
        ([0, 1, 1, 0, 0, 0, 0, 0, 0, 0, 0, 0] ++ [0, 7, 1, 0, 0, 0, 0, 0, 0, 0, 0, 0]) 12 ≠
      Packet.parsePacket [0, 7, 1, 0, 0, 0, 0, 0, 0, 0, 0, 0] 0 := by
  refine ⟨by decide, by decide, by decide⟩

/-- C7, amended: `Header::parse` uses the offset only for its length check
and decodes every field from the first 12 bytes of the buffer, so for any
offset `o` with at least 12 bytes available the parsed header equals the
one parsed at offset 0 (the question and resource records are then parsed
from `o + 12` onward, per `Packet::parse_packet`). -/
theorem c7_header_offset_amended (packet : Bytes) (o : Nat)
    (h : o + 12 ≤ packet.length) :
    Header.parse packet o = Header.parse packet 0 := by
  unfold Header.parse
  have h1 : ¬(packet.length - o < 12) := by omega
  have h2 : ¬(packet.length - 0 < 12) := by omega
  simp only [if_neg h1, if_neg h2]

/-- C7, witness for the amended theorem at the 24-byte two-message
buffer of the counterexample. -/
theorem c7_header_offset_amended_witness :
    12 + 12 ≤ ([0, 1, 1, 0, 0, 0, 0, 0, 0, 0, 0, 0] ++
               [0, 7, 1, 0, 0, 0, 0, 0, 0, 0, 0, 0] : Bytes).length ∧
    Header.parse ([0, 1, 1, 0, 0, 0, 0, 0, 0, 0, 0, 0] ++
                  [0, 7, 1, 0, 0, 0, 0, 0, 0, 0, 0, 0]) 12 =
      Header.parse ([0, 1, 1, 0, 0, 0, 0, 0, 0, 0, 0, 0] ++
                    [0, 7, 1, 0, 0, 0, 0, 0, 0, 0, 0, 0]) 0 :=
  ⟨by decide,
   c7_header_offset_amended _ 12 (by decide)⟩

/-! ## Claim C9: failure responses -/

/-- C9: a `TransactionError` converted into a failure response packet via
`stream_fail` / `Packet::new_failure` carries exactly the RCODE mapping
FormatError to 1, ServFail to 2, NameError to 3, NotImpl to 4, Refused to 5,
and the response id equals the transaction id when known and 0 when
unknown. -/
theorem c9_failure_rcode (idOpt : Option Nat) (e : PacketError) :
    (streamFailPacket ⟨idOpt, e⟩).header.id = idOpt.getD 0 ∧
    Rcode.toNat (streamFailPacket ⟨idOpt, e⟩).header.response =
      (match e with
       | .formatError => 1
       | .servFail => 2
       | .nameError _ => 3
       | .notImpl _ => 4
       | .refused _ => 5) := by
  refine ⟨rfl, ?_⟩
  cases e <;> rfl

/-! ## Claim C10: Name equality -/

/-- C10: Rust `Name` equality compares only the zipped label pairs, i.e.
two names are equal exactly when they agree on their first
`min(len(a), len(b))` labels; in particular every name equals any
extension of itself, and the root name equals every name. -/
theorem c10_name_eq :
    (∀ a b : Name, Name.rustEq a b = true ↔
      a.labels.take (min a.labels.length b.labels.length) =
        b.labels.take (min a.labels.length b.labels.length)) ∧
    (∀ (a : Name) (ext : List Bytes), Name.rustEq a ⟨a.labels ++ ext⟩ = true) ∧
    (∀ b : Name, Name.rustEq ⟨[]⟩ b = true) := by
  refine ⟨fun a b => zipAll_iff_take_eq a.labels b.labels, fun a ext => ?_, fun b => rfl⟩
  apply (zipAll_iff_take_eq a.labels (a.labels ++ ext)).mpr
  have hmin : min a.labels.length (a.labels ++ ext).length = a.labels.length := by
    simp only [List.length_append]
    omega
  rw [hmin, List.take_left, List.take_length]

/-! ## Claim C6: the suspect-client rule -/

theorem runWorker_append (s : Bool) (xs : List WorkerEvent) (e : WorkerEvent) :
    runWorker s (xs ++ [e]) =
      match runWorker s xs with
      | .closed => .closed
      | .running s' => workerStep s' e := by
  induction xs generalizing s with
  | nil =>
    simp only [List.nil_append, runWorker]
    cases workerStep s e <;> rfl
  | cons x xs ih =>
    simp only [List.cons_append, runWorker]
    cases workerStep s x with
    | closed => rfl
    | running s' => exact ih s'

theorem runWorker_flag (evs : List WorkerEvent)
    (hno : (tailAfterLastQuery evs).all (fun e => ! WorkerEvent.isCodec e) = true) :
    ∀ s, runWorker false evs = .running s → s = false := by
  induction evs using List.reverseRecOn with
  | nil =>
    intro s h
    simpa [runWorker] using h.symm
  | append_singleton xs e ih =>
    intro s h
    rw [runWorker_append] at h
    cases hrw : runWorker false xs with
    | closed => rw [hrw] at h; exact WorkerState.noConfusion h
    | running s' =>
      rw [hrw] at h
      cases e with
      | shutdownSignal => simp [workerStep] at h
      | readEof => simp [workerStep] at h
      | codecError w =>
        have htail : tailAfterLastQuery (xs ++ [.codecError w]) =
            tailAfterLastQuery xs ++ [.codecError w] := by
          unfold tailAfterLastQuery
          rw [List.foldl_append]
          rfl
        rw [htail] at hno
        simp [WorkerEvent.isCodec] at hno
      | nonQuery w =>
        have htail : tailAfterLastQuery (xs ++ [.nonQuery w]) =
            tailAfterLastQuery xs ++ [.nonQuery w] := by
          unfold tailAfterLastQuery
          rw [List.foldl_append]
          rfl
        rw [htail] at hno
        simp only [List.all_append, Bool.and_eq_true] at hno
        have hs' : s' = false := ih hno.1 s' hrw
        subst hs'
        simp only [workerStep, Bool.or_false] at h
        cases w with
        | false => simp at h
        | true =>
          simp only [Bool.not_true] at h
          rw [if_neg (by simp)] at h
          injection h with h
          exact h.symm
      | query a f r =>
        simp only [workerStep] at h
        split at h
        · exact WorkerState.noConfusion h
        · split at h
          · exact WorkerState.noConfusion h
          · injection h with h
            exact h.symm

/-- C6: the suspect-client rule of the stream worker.  (1) While no codec
error has occurred since the last accepted packet (or since the start), a
still-running worker has the `is_suspected` flag clear; hence by (2) a
codec error whose failure-response write succeeds never terminates such a
worker: it continues reading, now suspected.  (3) A second codec error
with no accepted packet in between (flag still set) closes the worker, as
does (4) a codec error whose failure-response write fails, at any flag
state. -/
theorem c6_suspect_rule :
    (∀ evs : List WorkerEvent,
      (tailAfterLastQuery evs).all (fun e => ! WorkerEvent.isCodec e) = true →
      ∀ s, runWorker false evs = .running s → s = false) ∧
    (∀ evs, runWorker false evs = .running false →
      runWorker false (evs ++ [.codecError true]) = .running true) ∧
    (∀ evs w, runWorker false evs = .running true →
      runWorker false (evs ++ [.codecError w]) = .closed) ∧
    (∀ evs s, runWorker false evs = .running s →
      runWorker false (evs ++ [.codecError false]) = .closed) := by
  refine ⟨runWorker_flag, ?_, ?_, ?_⟩
  · intro evs h
    rw [runWorker_append, h]
    rfl
  · intro evs w h
    rw [runWorker_append, h]
    cases w <;> rfl
  · intro evs s h
    rw [runWorker_append, h]
    cases s <;> rfl

/-- C6, witness: from a fresh worker, one codec error (with the failure
response written) leaves the worker running and suspected; a second one
closes it. -/
theorem c6_suspect_rule_witness :
    runWorker false [] = .running false ∧
    runWorker false [WorkerEvent.codecError true] = .running true ∧
    runWorker false [WorkerEvent.codecError true, WorkerEvent.codecError true] =
      .closed := by
  refine ⟨rfl, c6_suspect_rule.2.1 [] rfl, ?_⟩
  have h1 : runWorker false ([] ++ [WorkerEvent.codecError true]) = .running true :=
    c6_suspect_rule.2.1 [] rfl
  have h2 := c6_suspect_rule.2.2.1 ([] ++ [WorkerEvent.codecError true]) true
    (by simpa using h1)
  simpa using h2

/-! ## Claim C8: pointer-hop limit in Name parsing

Step lemmas: one unfolding of `parseLoop` per syntactic branch. -/

theorem parseLoop_guard {m : Nat} {packet : Bytes} {pos jumps : Nat} {ij : Bool}
    {d : Nat} {ls : List Bytes} {sz : Nat}
    (h : jumps > m ∨ pos ≥ packet.length) :
    parseLoop m packet pos jumps ij d ls sz = .error .formatError := by
  rw [parseLoop, if_pos h]

theorem parseLoop_zero {m : Nat} {packet : Bytes} {pos jumps : Nat} {ij : Bool}
    {d : Nat} {ls : List Bytes} {sz : Nat}
    (h : ¬(jumps > m ∨ pos ≥ packet.length)) (hb : byteAt packet pos = 0) :
    parseLoop m packet pos jumps ij d ls sz =
      if sz ≥ 253 then .error .formatError else .ok (⟨ls⟩, d, jumps) := by
  rw [parseLoop, if_neg h, if_pos hb]

theorem parseLoop_ptr {m : Nat} {packet : Bytes} {pos jumps : Nat} {ij : Bool}
    {d : Nat} {ls : List Bytes} {sz : Nat}
    (h : ¬(jumps > m ∨ pos ≥ packet.length)) (hb : ¬(byteAt packet pos = 0))
    (hp : 192 ≤ byteAt packet pos)
    (h1 : ¬(pos + 1 ≥ packet.length))
    (h2 : ¬((byteAt packet pos - 192) * 256 + byteAt packet (pos + 1) ≥ packet.length)) :
    parseLoop m packet pos jumps ij d ls sz =
      parseLoop m packet ((byteAt packet pos - 192) * 256 + byteAt packet (pos + 1))
        (jumps + 1) true (if ij then d else pos + 2) ls sz := by
  rw [parseLoop, if_neg h, if_neg hb, dif_pos hp, if_neg h1, dif_neg h2]

theorem parseLoop_ptr_oob1 {m : Nat} {packet : Bytes} {pos jumps : Nat} {ij : Bool}
    {d : Nat} {ls : List Bytes} {sz : Nat}
    (h : ¬(jumps > m ∨ pos ≥ packet.length)) (hb : ¬(byteAt packet pos = 0))
    (hp : 192 ≤ byteAt packet pos)
    (h1 : pos + 1 ≥ packet.length) :
    parseLoop m packet pos jumps ij d ls sz = .error .formatError := by
  rw [parseLoop, if_neg h, if_neg hb, dif_pos hp, if_pos h1]

theorem parseLoop_ptr_oob2 {m : Nat} {packet : Bytes} {pos jumps : Nat} {ij : Bool}
    {d : Nat} {ls : List Bytes} {sz : Nat}
    (h : ¬(jumps > m ∨ pos ≥ packet.length)) (hb : ¬(byteAt packet pos = 0))
    (hp : 192 ≤ byteAt packet pos)
    (h1 : ¬(pos + 1 ≥ packet.length))
    (h2 : (byteAt packet pos - 192) * 256 + byteAt packet (pos + 1) ≥ packet.length) :
    parseLoop m packet pos jumps ij d ls sz = .error .formatError := by
  rw [parseLoop, if_neg h, if_neg hb, dif_pos hp, if_neg h1, dif_pos h2]

theorem parseLoop_label {m : Nat} {packet : Bytes} {pos jumps : Nat} {ij : Bool}
    {d : Nat} {ls : List Bytes} {sz : Nat}
    (h : ¬(jumps > m ∨ pos ≥ packet.length)) (hb : ¬(byteAt packet pos = 0))
    (hp : ¬(192 ≤ byteAt packet pos))
    (h3 : ¬(pos + 1 + byteAt packet pos > packet.length))
    (hu : validUtf8 (sliceBytes packet (pos + 1) (byteAt packet pos)) = true) :
    parseLoop m packet pos jumps ij d ls sz =
      parseLoop m packet (pos + 1 + byteAt packet pos) jumps ij
        (if ij then d else pos + 1 + byteAt packet pos + 1)
        (ls ++ [sliceBytes packet (pos + 1) (byteAt packet pos)])
        (sz + byteAt packet pos + 1) := by
  rw [parseLoop, if_neg h, if_neg hb, dif_neg hp, dif_neg h3, if_pos hu]

theorem parseLoop_label_oob {m : Nat} {packet : Bytes} {pos jumps : Nat} {ij : Bool}
    {d : Nat} {ls : List Bytes} {sz : Nat}
    (h : ¬(jumps > m ∨ pos ≥ packet.length)) (hb : ¬(byteAt packet pos = 0))
    (hp : ¬(192 ≤ byteAt packet pos))
    (h3 : pos + 1 + byteAt packet pos > packet.length) :
    parseLoop m packet pos jumps ij d ls sz = .error .formatError := by
  rw [parseLoop, if_neg h, if_neg hb, dif_neg hp, dif_pos h3]

theorem parseLoop_label_utf {m : Nat} {packet : Bytes} {pos jumps : Nat} {ij : Bool}
    {d : Nat} {ls : List Bytes} {sz : Nat}
    (h : ¬(jumps > m ∨ pos ≥ packet.length)) (hb : ¬(byteAt packet pos = 0))
    (hp : ¬(192 ≤ byteAt packet pos))
    (h3 : ¬(pos + 1 + byteAt packet pos > packet.length))
    (hu : ¬(validUtf8 (sliceBytes packet (pos + 1) (byteAt packet pos)) = true)) :
    parseLoop m packet pos jumps ij d ls sz = .error .formatError := by
  rw [parseLoop, if_neg h, if_neg hb, dif_neg hp, dif_neg h3, if_neg hu]

/-- Runs of the name-parsing loop under different jump limits: a run that
succeeds under limit `m1` using `n` hops in total behaves, under limit
`m2`, identically when `n ≤ m2` and fails with `FormatError` when
`m2 < n` (the guard fires at the first state whose hop counter exceeds
`m2`). -/
theorem parseLoop_limit (m1 m2 : Nat) (packet : Bytes) :
    ∀ (pos jumps : Nat) (ij : Bool) (d : Nat) (ls : List Bytes) (sz : Nat)
      (nm : Name) (e n : Nat),
      parseLoop m1 packet pos jumps ij d ls sz = .ok (nm, e, n) →
      jumps ≤ n ∧
      (n ≤ m2 → parseLoop m2 packet pos jumps ij d ls sz = .ok (nm, e, n)) ∧
      (m2 < n → parseLoop m2 packet pos jumps ij d ls sz = .error .formatError) := by
  intro pos jumps ij d ls sz
  induction pos, jumps, ij, d, ls, sz using parseLoop.induct m1 packet with
  | case1 pos jumps ij d ls sz h =>
    intro nm e n hrun
    rw [parseLoop_guard h] at hrun
    exact Except.noConfusion hrun
  | case2 pos jumps ij d ls sz h b hb hsz =>
    intro nm e n hrun
    rw [parseLoop_zero h hb, if_pos hsz] at hrun
    exact Except.noConfusion hrun
  | case3 pos jumps ij d ls sz h b hb hsz =>
    intro nm e n hrun
    rw [parseLoop_zero h hb, if_neg hsz] at hrun
    simp only [Except.ok.injEq, Prod.mk.injEq] at hrun
    obtain ⟨hnm, he, hn⟩ := hrun
    subst hnm
    subst he
    subst hn
    refine ⟨Nat.le_refl _, fun hle => ?_, fun hlt => ?_⟩
    · have g2 : ¬(jumps > m2 ∨ pos ≥ packet.length) := by
        simp only [not_or] at h ⊢
        exact ⟨by omega, h.2⟩
      rw [parseLoop_zero g2 hb, if_neg hsz]
    · exact parseLoop_guard (Or.inl hlt)
  | case4 pos jumps ij d ls sz h b hb hp h1 =>
    intro nm e n hrun
    rw [parseLoop_ptr_oob1 h hb hp h1] at hrun
    exact Except.noConfusion hrun
  | case5 pos jumps ij d ls sz h b hb hp h1 jmpTo h2 =>
    intro nm e n hrun
    rw [parseLoop_ptr_oob2 h hb hp h1 h2] at hrun
    exact Except.noConfusion hrun
  | case6 pos jumps ij d ls sz h b hb hp d2 h1 jmpTo h2 ih =>
    intro nm e n hrun
    rw [parseLoop_ptr h hb hp h1 h2] at hrun
    obtain ⟨hj, hle, hlt⟩ := ih nm e n hrun
    have hpos : ¬(pos ≥ packet.length) := by
      simp only [not_or] at h
      exact h.2
    refine ⟨by omega, fun hn2 => ?_, fun hm2 => ?_⟩
    · have g2 : ¬(jumps > m2 ∨ pos ≥ packet.length) := by
        simp only [not_or]
        exact ⟨by omega, hpos⟩
      rw [parseLoop_ptr g2 hb hp h1 h2]
      exact hle hn2
    · by_cases hjm : jumps > m2
      · exact parseLoop_guard (Or.inl hjm)
      · have g2 : ¬(jumps > m2 ∨ pos ≥ packet.length) := by
          simp only [not_or]
          exact ⟨hjm, hpos⟩
        rw [parseLoop_ptr g2 hb hp h1 h2]
        exact hlt hm2
  | case7 pos jumps ij d ls sz h b hb hp len en h3 =>
    intro nm e n hrun
    rw [parseLoop_label_oob h hb hp h3] at hrun
    exact Except.noConfusion hrun
  | case8 pos jumps ij d ls sz h b hb hp len en h3 lbl hu d2 ih =>
    intro nm e n hrun
    rw [parseLoop_label h hb hp h3 hu] at hrun
    obtain ⟨hj, hle, hlt⟩ := ih nm e n hrun
    have hpos : ¬(pos ≥ packet.length) := by
      simp only [not_or] at h
      exact h.2
    refine ⟨hj, fun hn2 => ?_, fun hm2 => ?_⟩
    · have g2 : ¬(jumps > m2 ∨ pos ≥ packet.length) := by
        simp only [not_or]
        exact ⟨by omega, hpos⟩
      rw [parseLoop_label g2 hb hp h3 hu]
      exact hle hn2
    · by_cases hjm : jumps > m2
      · exact parseLoop_guard (Or.inl hjm)
      · have g2 : ¬(jumps > m2 ∨ pos ≥ packet.length) := by
          simp only [not_or]
          exact ⟨hjm, hpos⟩
        rw [parseLoop_label g2 hb hp h3 hu]
        exact hlt hm2
  | case9 pos jumps ij d ls sz h b hb hp len en h3 lbl hu =>
    intro nm e n hrun
    rw [parseLoop_label_utf h hb hp h3 hu] at hrun
    exact Except.noConfusion hrun

/-- C8: `Name::parse` runs the resolution loop with jump limit 5.  For any
packet and position whose pointer chain resolves (under a generous limit
`m`) with `n` pointer hops: if `n ≤ 5` then `Name::parse` succeeds with
the same name and end offset, and if the resolution requires `n > 5` hops
then `Name::parse` fails with `FormatError`.  (A chain that never resolves
also fails: every error path of the loop, the exhausted-jump guard
included, returns `FormatError`.) -/
theorem c8_pointer_hops :
    (∀ (m : Nat) (packet : Bytes) (pos : Nat) (nm : Name) (e n : Nat),
      nameParseG m packet pos = .ok (nm, e, n) → n ≤ 5 →
      Name.parse packet pos = .ok (nm, e)) ∧
    (∀ (m : Nat) (packet : Bytes) (pos : Nat) (nm : Name) (e n : Nat),
      nameParseG m packet pos = .ok (nm, e, n) → 5 < n →
      Name.parse packet pos = .error .formatError) := by
  constructor
  · intro m packet pos nm e n hrun hn
    unfold Name.parse nameParseG
    unfold nameParseG at hrun
    by_cases hz : byteAt packet pos = 0
    · rw [if_pos hz] at hrun ⊢
      simp only [Except.ok.injEq, Prod.mk.injEq] at hrun
      obtain ⟨h1, h2, _⟩ := hrun
      subst h1
      subst h2
      rfl
    · rw [if_neg hz] at hrun ⊢
      rw [(parseLoop_limit m 5 packet pos 0 false 0 [] 0 nm e n hrun).2.1 hn]
      rfl
  · intro m packet pos nm e n hrun hn
    unfold Name.parse nameParseG
    unfold nameParseG at hrun
    by_cases hz : byteAt packet pos = 0
    · rw [if_pos hz] at hrun
      simp only [Except.ok.injEq, Prod.mk.injEq] at hrun
      omega
    · rw [if_neg hz] at hrun ⊢
      rw [(parseLoop_limit m 5 packet pos 0 false 0 [] 0 nm e n hrun).2.2 hn]
      rfl

/-- C8, witness: a chain of exactly 5 pointer hops resolves (to the name
with single label "a", end offset 2), while a chain of 6 pointer hops
makes `Name::parse` fail with `FormatError`. -/
theorem c8_pointer_hops_witness :
    (nameParseG 10 [192, 2, 192, 4, 192, 6, 192, 8, 192, 10, 1, 97, 0] 0 =
       .ok (⟨[[97]]⟩, 2, 5) ∧
     Name.parse [192, 2, 192, 4, 192, 6, 192, 8, 192, 10, 1, 97, 0] 0 =
       .ok (⟨[[97]]⟩, 2)) ∧
    (nameParseG 10 [192, 2, 192, 4, 192, 6, 192, 8, 192, 10, 192, 12, 1, 97, 0] 0 =
       .ok (⟨[[97]]⟩, 2, 6) ∧
     Name.parse [192, 2, 192, 4, 192, 6, 192, 8, 192, 10, 192, 12, 1, 97, 0] 0 =
       .error .formatError) := by
  have h5 : nameParseG 10 [192, 2, 192, 4, 192, 6, 192, 8, 192, 10, 1, 97, 0] 0 =
      .ok (⟨[[97]]⟩, 2, 5) := by
    rw [nameParseG]
    norm_num [byteAt]
    rw [parseLoop]
    norm_num [byteAt]
    rw [parseLoop]
    norm_num [byteAt]
    rw [parseLoop]
    norm_num [byteAt]
    rw [parseLoop]
    norm_num [byteAt]
    rw [parseLoop]
    norm_num [byteAt]
    rw [parseLoop]
    norm_num [byteAt, sliceBytes, validUtf8, utf8Loop]
    rw [parseLoop]
    decide
  have h6 : nameParseG 10 [192, 2, 192, 4, 192, 6, 192, 8, 192, 10, 192, 12, 1, 97, 0] 0 =
      .ok (⟨[[97]]⟩, 2, 6) := by
    rw [nameParseG]
    norm_num [byteAt]
    rw [parseLoop]
    norm_num [byteAt]
    rw [parseLoop]
    norm_num [byteAt]
    rw [parseLoop]
    norm_num [byteAt]
    rw [parseLoop]
    norm_num [byteAt]
    rw [parseLoop]
    norm_num [byteAt]
    rw [parseLoop]
    norm_num [byteAt]
    rw [parseLoop]
    norm_num [byteAt, sliceBytes, validUtf8, utf8Loop]
    rw [parseLoop]
    decide
  exact ⟨⟨h5, c8_pointer_hops.1 10 _ 0 _ _ 5 h5 (by decide)⟩,
         ⟨h6, c8_pointer_hops.2 10 _ 0 _ _ 6 h6 (by decide)⟩⟩


theorem byteAt_append (pre rest : Bytes) (i : Nat) :
    byteAt (pre ++ rest) (pre.length + i) = byteAt rest i := by
  unfold byteAt
  rw [List.getD_append_right pre rest 0 (pre.length + i) (Nat.le_add_right _ _)]
  congr 2
  omega

theorem getU16_append (pre rest : Bytes) (i : Nat) :
    getU16 (pre ++ rest) (pre.length + i) = getU16 rest i := by
  unfold getU16
  rw [byteAt_append]
  have h : pre.length + i + 1 = pre.length + (i + 1) := by omega
  rw [h, byteAt_append]

theorem getU32_append (pre rest : Bytes) (i : Nat) :
    getU32 (pre ++ rest) (pre.length + i) = getU32 rest i := by
  unfold getU32
  rw [byteAt_append]
  have h1 : pre.length + i + 1 = pre.length + (i + 1) := by omega
  have h2 : pre.length + i + 2 = pre.length + (i + 2) := by omega
  have h3 : pre.length + i + 3 = pre.length + (i + 3) := by omega
  rw [h1, byteAt_append, h2, byteAt_append, h3, byteAt_append]

theorem getU16_put (x : Nat) (rest : Bytes) (hx : x < 65536) :
    getU16 (putU16 x ++ rest) 0 = x := by
  show getU16 ([x % 65536 / 256, x % 256] ++ rest) 0 = x
  unfold getU16 byteAt
  simp only [List.cons_append, List.getD_cons_zero, List.getD_cons_succ]
  omega

theorem getU32_put (x : Nat) (rest : Bytes) (hx : x < 4294967296) :
    getU32 (putU32 x ++ rest) 0 = x := by
  show getU32 ([x % 4294967296 / 16777216, x % 16777216 / 65536, x % 65536 / 256, x % 256] ++ rest) 0 = x
  unfold getU32 byteAt
  simp only [List.cons_append, List.getD_cons_zero, List.getD_cons_succ]
  omega

theorem sliceBytes_exact (pre mid suf : Bytes) :
    sliceBytes (pre ++ mid ++ suf) pre.length mid.length = mid := by
  unfold sliceBytes
  rw [List.append_assoc, List.drop_left, List.take_left]

theorem putU16_length (x : Nat) : (putU16 x).length = 2 := rfl

theorem putU32_length (x : Nat) : (putU32 x).length = 4 := rfl

theorem encBody_length (ls : List Bytes) : (encBody ls).length = encSize ls := by
  induction ls with
  | nil => rfl
  | cons l ls ih =>
    simp only [encBody, List.flatMap_cons, List.length_append, List.length_cons]
    simp only [encBody] at ih
    simp only [encSize, List.foldr_cons] at *
    omega

theorem asBytes_length (n : Name) :
    (Name.asBytesUncompressed n).length = encSize n.labels + 1 := by
  unfold Name.asBytesUncompressed
  simp [encBody_length]



theorem byteAt_cons_at (pre : Bytes) (b : Nat) (rest : Bytes) :
    byteAt (pre ++ (b :: rest)) pre.length = b % 256 := by
  have h := byteAt_append pre (b :: rest) 0
  rw [Nat.add_zero] at h
  rw [h]
  rfl

theorem sliceBytes_exact' (pre mid suf : Bytes) :
    sliceBytes (pre ++ (mid ++ suf)) pre.length mid.length = mid := by
  have := sliceBytes_exact pre mid suf
  rwa [List.append_assoc] at this

theorem getU16_put_at (pre : Bytes) (x : Nat) (rest : Bytes) (hx : x < 65536) :
    getU16 (pre ++ (putU16 x ++ rest)) pre.length = x := by
  have h := getU16_append pre (putU16 x ++ rest) 0
  rw [Nat.add_zero] at h
  rw [h]
  exact getU16_put x rest hx

theorem getU32_put_at (pre : Bytes) (x : Nat) (rest : Bytes) (hx : x < 4294967296) :
    getU32 (pre ++ (putU32 x ++ rest)) pre.length = x := by
  have h := getU32_append pre (putU32 x ++ rest) 0
  rw [Nat.add_zero] at h
  rw [h]
  exact getU32_put x rest hx

theorem parseLoop_emitName (m : Nat) :
    ∀ (ls : List Bytes) (pre suf : Bytes) (jumps : Nat) (labels0 : List Bytes) (d0 size0 : Nat),
      (∀ l ∈ ls, 1 ≤ l.length ∧ l.length ≤ 63 ∧ validUtf8 l = true) →
      size0 + encSize ls < 253 →
      jumps ≤ m →
      parseLoop m (pre ++ (encBody ls ++ 0 :: suf)) pre.length jumps false d0 labels0 size0 =
        .ok (⟨labels0 ++ ls⟩,
             (if ls.isEmpty then d0 else pre.length + encSize ls + 1), jumps) := by
  intro ls
  induction ls with
  | nil =>
    intro pre suf jumps labels0 d0 size0 hwf hsz hj
    have hzero : byteAt (pre ++ (encBody [] ++ 0 :: suf)) pre.length = 0 := by
      simp only [encBody, List.flatMap_nil, List.nil_append]
      rw [byteAt_cons_at]
    have hlen : pre.length < (pre ++ (encBody [] ++ 0 :: suf)).length := by
      simp [encBody]
    rw [parseLoop_zero (by omega) hzero]
    have hsz' : ¬(size0 ≥ 253) := by
      simp only [encSize, List.foldr_nil] at hsz
      omega
    rw [if_neg hsz']
    simp
  | cons l ls ih =>
    intro pre suf jumps labels0 d0 size0 hwf hsz hj
    obtain ⟨hl1, hl63, hlu⟩ := hwf l (List.mem_cons_self l ls)
    have hmod : l.length % 256 = l.length := Nat.mod_eq_of_lt (by omega)
    have hpkt : pre ++ (encBody (l :: ls) ++ 0 :: suf) =
        pre ++ (l.length % 256 :: (l ++ (encBody ls ++ 0 :: suf))) := by
      simp [encBody, List.flatMap_cons]
    rw [hpkt]
    have hb : byteAt (pre ++ (l.length % 256 :: (l ++ (encBody ls ++ 0 :: suf)))) pre.length
        = l.length := by
      rw [byteAt_cons_at]
      omega
    have hlenpkt : (pre ++ (l.length % 256 :: (l ++ (encBody ls ++ 0 :: suf)))).length =
        pre.length + 1 + l.length + (encBody ls).length + 1 + suf.length := by
      simp
      omega
    have hslice : sliceBytes (pre ++ (l.length % 256 :: (l ++ (encBody ls ++ 0 :: suf))))
        (pre.length + 1) l.length = l := by
      have h1 : pre ++ (l.length % 256 :: (l ++ (encBody ls ++ 0 :: suf)))
          = (pre ++ [l.length % 256]) ++ (l ++ (encBody ls ++ 0 :: suf)) := by
        simp
      rw [h1]
      have h2 : pre.length + 1 = (pre ++ [l.length % 256]).length := by simp
      rw [h2]
      exact sliceBytes_exact' _ l _
    rw [parseLoop_label (by rw [hlenpkt]; omega) (by rw [hb]; omega) (by rw [hb]; omega)
      (by rw [hb, hlenpkt]; omega) (by rw [hb, hslice]; exact hlu)]
    rw [hb, hslice]
    have hre : pre ++ (l.length % 256 :: (l ++ (encBody ls ++ 0 :: suf)))
        = (pre ++ (l.length % 256 :: l)) ++ (encBody ls ++ 0 :: suf) := by
      simp
    have hre2 : pre.length + 1 + l.length = (pre ++ (l.length % 256 :: l)).length := by
      simp
      omega
    rw [hre, hre2, if_neg (by simp)]
    have hwf' : ∀ x ∈ ls, 1 ≤ x.length ∧ x.length ≤ 63 ∧ validUtf8 x = true :=
      fun x hx => hwf x (List.mem_cons_of_mem l hx)
    have hsz'' : size0 + l.length + 1 + encSize ls < 253 := by
      simp only [encSize, List.foldr_cons] at hsz
      simp only [encSize]
      omega
    rw [ih (pre ++ (l.length % 256 :: l)) suf jumps (labels0 ++ [l])
      ((pre ++ (l.length % 256 :: l)).length + 1) (size0 + l.length + 1) hwf' hsz'' hj]
    have happ : (labels0 ++ [l]) ++ ls = labels0 ++ l :: ls := by simp
    have hsnd : (if ls.isEmpty then (pre ++ (l.length % 256 :: l)).length + 1
        else (pre ++ (l.length % 256 :: l)).length + encSize ls + 1)
        = (if (l :: ls).isEmpty then d0 else pre.length + encSize (l :: ls) + 1) := by
      cases ls with
      | nil =>
        simp [encSize]
        try omega
      | cons y ys =>
        simp [encSize]
        try omega
    rw [happ, hsnd]

theorem horner_step (x c c2 : Nat) (h : c2 = c * 256) :
    x / c2 * 256 + x / c % 256 = x / c := by
  subst h
  rw [(Nat.div_div_eq_div_mul x c 256).symm]
  omega

theorem getU128_put (x : Nat) (rest : Bytes)
    (hx : x < 340282366920938463463374607431768211456) :
    getU128 (putU128 x ++ rest) 0 = x := by
  unfold getU128 putU128 byteAt
  simp only [List.cons_append, List.getD_cons_zero, List.getD_cons_succ, Nat.reduceAdd,
    Nat.mod_mod_of_dvd _ (dvd_refl 256)]
  have h15 : x / 1329227995784915872903807060280344576 % 256 =
      x / 1329227995784915872903807060280344576 := by
    apply Nat.mod_eq_of_lt
    omega
  rw [h15]
  rw [horner_step x 5192296858534827628530496329220096 1329227995784915872903807060280344576 (by norm_num)]
  rw [horner_step x 20282409603651670423947251286016 5192296858534827628530496329220096 (by norm_num)]
  rw [horner_step x 79228162514264337593543950336 20282409603651670423947251286016 (by norm_num)]
  rw [horner_step x 309485009821345068724781056 79228162514264337593543950336 (by norm_num)]
  rw [horner_step x 1208925819614629174706176 309485009821345068724781056 (by norm_num)]
  rw [horner_step x 4722366482869645213696 1208925819614629174706176 (by norm_num)]
  rw [horner_step x 18446744073709551616 4722366482869645213696 (by norm_num)]
  rw [horner_step x 72057594037927936 18446744073709551616 (by norm_num)]
  rw [horner_step x 281474976710656 72057594037927936 (by norm_num)]
  rw [horner_step x 1099511627776 281474976710656 (by norm_num)]
  rw [horner_step x 4294967296 1099511627776 (by norm_num)]
  rw [horner_step x 16777216 4294967296 (by norm_num)]
  rw [horner_step x 65536 16777216 (by norm_num)]
  rw [horner_step x 256 65536 (by norm_num)]
  omega

theorem getU128_put_at (pre : Bytes) (x : Nat) (rest : Bytes)
    (hx : x < 340282366920938463463374607431768211456) :
    getU128 (pre ++ (putU128 x ++ rest)) pre.length = x := by
  have h : ∀ i, getU128 (pre ++ (putU128 x ++ rest)) (pre.length + i) =
      getU128 (putU128 x ++ rest) i := by
    intro i
    unfold getU128
    have e : ∀ k, byteAt (pre ++ (putU128 x ++ rest)) (pre.length + i + k) =
        byteAt (putU128 x ++ rest) (i + k) := by
      intro k
      have h2 : pre.length + i + k = pre.length + (i + k) := by omega
      rw [h2, byteAt_append]
    have e0 := e 0
    simp only [Nat.add_zero] at e0
    rw [e0, show pre.length + i + 1 = pre.length + i + 1 from rfl]
    rw [e 1, e 2, e 3, e 4, e 5, e 6, e 7, e 8, e 9, e 10, e 11, e 12, e 13, e 14, e 15]
  have h0 := h 0
  rw [Nat.add_zero] at h0
  rw [h0]
  exact getU128_put x rest hx

theorem Name.wf_spec (n : Name) (h : Name.wf n = true) :
    (∀ l ∈ n.labels, 1 ≤ l.length ∧ l.length ≤ 63 ∧ validUtf8 l = true) ∧
    encSize n.labels ≤ 252 := by
  simp only [Name.wf, Bool.and_eq_true, List.all_eq_true, decide_eq_true_eq] at h
  obtain ⟨h1, h2⟩ := h
  refine ⟨fun l hl => ?_, h2⟩
  obtain ⟨⟨a, b⟩, c⟩ := h1 l hl
  exact ⟨a, b, c⟩

theorem nameParse_emit (n : Name) (pre suf : Bytes) (h : Name.wf n = true) :
    Name.parse (pre ++ (Name.asBytesUncompressed n ++ suf)) pre.length =
      .ok (n, pre.length + encSize n.labels + 1) := by
  obtain ⟨labels⟩ := n
  obtain ⟨hlbl, hsz⟩ := Name.wf_spec ⟨labels⟩ h
  simp only at hlbl hsz
  unfold Name.parse nameParseG
  have hshape : Name.asBytesUncompressed ⟨labels⟩ ++ suf = encBody labels ++ 0 :: suf := by
    simp [Name.asBytesUncompressed]
  rw [hshape]
  cases labels with
  | nil =>
    have hz : byteAt (pre ++ (encBody [] ++ 0 :: suf)) pre.length = 0 := by
      simp only [encBody, List.flatMap_nil, List.nil_append]
      rw [byteAt_cons_at]
    rw [if_pos hz]
    simp only [encSize, List.foldr_nil]
    rfl
  | cons l ls =>
    have hl := hlbl l (List.mem_cons_self l ls)
    have hb : byteAt (pre ++ (encBody (l :: ls) ++ 0 :: suf)) pre.length = l.length := by
      have hpkt : pre ++ (encBody (l :: ls) ++ 0 :: suf) =
          pre ++ (l.length % 256 :: (l ++ (encBody ls ++ 0 :: suf))) := by
        simp [encBody, List.flatMap_cons]
      rw [hpkt, byteAt_cons_at]
      omega
    rw [if_neg (by rw [hb]; omega)]
    rw [parseLoop_emitName 5 (l :: ls) pre suf 0 [] 0 0 hlbl (by omega) (by omega)]
    simp [Except.map]

theorem exceptBind_ok {α β ε : Type} (a : α) (f : α → Except ε β) :
    (Except.ok a >>= f : Except ε β) = f a := rfl

theorem rrtypeCanonSpec (t : RRType) (h : RRType.canon t = true) :
    RRType.ofNat (RRType.toNat t) = t ∧ RRType.toNat t < 65536 := by
  simp only [RRType.canon, Bool.and_eq_true, beq_iff_eq, decide_eq_true_eq] at h
  exact h

theorem rrclsCanonSpec (c : RRCls) (h : RRCls.canon c = true) :
    RRCls.ofNat (RRCls.toNat c) = c ∧ RRCls.toNat c < 65536 := by
  simp only [RRCls.canon, Bool.and_eq_true, beq_iff_eq, decide_eq_true_eq] at h
  exact h

theorem questionParse_emit (q : Question) (pre suf : Bytes) (h : Question.wf q = true) :
    Question.parse (pre ++ (Question.intoBytes q ++ suf)) pre.length =
      .ok (q, pre.length + (Question.intoBytes q).length) := by
  obtain ⟨name, ty, cls⟩ := q
  simp only [Question.wf, Bool.and_eq_true] at h
  obtain ⟨⟨hname, hty⟩, hcls⟩ := h
  obtain ⟨htyEq, htyLt⟩ := rrtypeCanonSpec ty hty
  obtain ⟨hclsEq, hclsLt⟩ := rrclsCanonSpec cls hcls
  have hshape : Question.intoBytes ⟨name, ty, cls⟩ ++ suf =
      Name.asBytesUncompressed name ++
        (putU16 (RRType.toNat ty) ++ (putU16 (RRCls.toNat cls) ++ suf)) := by
    simp [Question.intoBytes]
  rw [hshape]
  unfold Question.parse
  rw [nameParse_emit name pre _ hname]
  simp only [exceptBind_ok]
  have e1 : pre ++ (Name.asBytesUncompressed name ++
      (putU16 (RRType.toNat ty) ++ (putU16 (RRCls.toNat cls) ++ suf))) =
      (pre ++ Name.asBytesUncompressed name) ++
      (putU16 (RRType.toNat ty) ++ (putU16 (RRCls.toNat cls) ++ suf)) := by
    simp
  have hp1 : pre.length + encSize name.labels + 1 =
      (pre ++ Name.asBytesUncompressed name).length := by
    simp [asBytes_length]
    omega
  have h1 : getU16 (pre ++ (Name.asBytesUncompressed name ++
      (putU16 (RRType.toNat ty) ++ (putU16 (RRCls.toNat cls) ++ suf))))
      (pre.length + encSize name.labels + 1) = RRType.toNat ty := by
    rw [e1, hp1]
    exact getU16_put_at _ _ _ htyLt
  have e2 : pre ++ (Name.asBytesUncompressed name ++
      (putU16 (RRType.toNat ty) ++ (putU16 (RRCls.toNat cls) ++ suf))) =
      ((pre ++ Name.asBytesUncompressed name) ++ putU16 (RRType.toNat ty)) ++
      (putU16 (RRCls.toNat cls) ++ suf) := by
    simp
  have hp2 : pre.length + encSize name.labels + 1 + 2 =
      ((pre ++ Name.asBytesUncompressed name) ++ putU16 (RRType.toNat ty)).length := by
    simp [asBytes_length, putU16_length]
    omega
  have h2 : getU16 (pre ++ (Name.asBytesUncompressed name ++
      (putU16 (RRType.toNat ty) ++ (putU16 (RRCls.toNat cls) ++ suf))))
      (pre.length + encSize name.labels + 1 + 2) = RRCls.toNat cls := by
    rw [e2, hp2]
    exact getU16_put_at _ _ _ hclsLt
  rw [h1, h2, htyEq, hclsEq]
  simp only [Except.ok.injEq, Prod.mk.injEq, Question.intoBytes]
  refine ⟨trivial, ?_⟩
  simp [asBytes_length, putU16_length]
  omega

theorem encSize_ge (ls : List Bytes) (h1 : ∀ l ∈ ls, 1 ≤ l.length) (hne : ls ≠ []) :
    2 ≤ encSize ls := by
  cases ls with
  | nil => exact absurd rfl hne
  | cons l ls =>
    have := h1 l (List.mem_cons_self l ls)
    simp only [encSize, List.foldr_cons]
    have h2 : 0 ≤ encSize ls := Nat.zero_le _
    simp only [encSize] at h2
    omega

theorem aParse_emit (v : A) (pre suf : Bytes) (hv : v.addr < 4294967296) :
    A.parse (pre ++ ((putU16 4 ++ putU32 v.addr) ++ suf)) pre.length =
      .ok (v, pre.length + 6) := by
  obtain ⟨addr⟩ := v
  have hL : (pre ++ ((putU16 4 ++ putU32 addr) ++ suf)).length =
      pre.length + 6 + suf.length := by
    simp [putU16, putU32]
    omega
  have e1 : pre ++ ((putU16 4 ++ putU32 addr) ++ suf) =
      pre ++ (putU16 4 ++ (putU32 addr ++ suf)) := by simp
  have h4 : getU16 (pre ++ ((putU16 4 ++ putU32 addr) ++ suf)) pre.length = 4 := by
    rw [e1]
    exact getU16_put_at _ _ _ (by omega)
  have h32 : getU32 (pre ++ ((putU16 4 ++ putU32 addr) ++ suf)) (pre.length + 2) = addr := by
    have e2 : pre ++ ((putU16 4 ++ putU32 addr) ++ suf) =
        (pre ++ putU16 4) ++ (putU32 addr ++ suf) := by simp
    have hp : pre.length + 2 = (pre ++ putU16 4).length := by simp [putU16]
    rw [e2, hp]
    exact getU32_put_at _ _ _ hv
  unfold A.parse
  rw [if_neg (by rw [hL]; omega), if_neg (by rw [h4]; omega), h32]

theorem aaaaParse_emit (v : Aaaa) (pre suf : Bytes)
    (hv : v.addr < 340282366920938463463374607431768211456) :
    Aaaa.parse (pre ++ ((putU16 16 ++ putU128 v.addr) ++ suf)) pre.length =
      .ok (v, pre.length + 18) := by
  obtain ⟨addr⟩ := v
  have hL : (pre ++ ((putU16 16 ++ putU128 addr) ++ suf)).length =
      pre.length + 18 + suf.length := by
    simp [putU16, putU128]
    omega
  have e1 : pre ++ ((putU16 16 ++ putU128 addr) ++ suf) =
      pre ++ (putU16 16 ++ (putU128 addr ++ suf)) := by simp
  have h16 : getU16 (pre ++ ((putU16 16 ++ putU128 addr) ++ suf)) pre.length = 16 := by
    rw [e1]
    exact getU16_put_at _ _ _ (by omega)
  have h128 : getU128 (pre ++ ((putU16 16 ++ putU128 addr) ++ suf)) (pre.length + 2) = addr := by
    have e2 : pre ++ ((putU16 16 ++ putU128 addr) ++ suf) =
        (pre ++ putU16 16) ++ (putU128 addr ++ suf) := by simp
    have hp : pre.length + 2 = (pre ++ putU16 16).length := by simp [putU16]
    rw [e2, hp]
    exact getU128_put_at _ _ _ hv
  unfold Aaaa.parse
  rw [if_neg (by rw [hL]; omega), if_neg (by rw [h16]; omega), h128]

theorem parseDomainRdata_emit (nm : Name) (pre suf : Bytes)
    (hn : Name.wf nm = true) (hne : ¬nm.labels.isEmpty) :
    parseDomainRdata
        (pre ++ ((putU16 (Name.asBytesUncompressed nm).length ++
                  Name.asBytesUncompressed nm) ++ suf)) pre.length =
      .ok (nm, pre.length + 2 + (Name.asBytesUncompressed nm).length) := by
  obtain ⟨hlbl, hsz⟩ := Name.wf_spec nm hn
  have hW : (Name.asBytesUncompressed nm).length = encSize nm.labels + 1 := asBytes_length nm
  have hge : 2 ≤ encSize nm.labels := by
    apply encSize_ge
    · intro l hl
      exact (hlbl l hl).1
    · intro hcon
      rw [List.isEmpty_iff] at hne
      exact hne hcon
  have hL : (pre ++ ((putU16 (Name.asBytesUncompressed nm).length ++
      Name.asBytesUncompressed nm) ++ suf)).length =
      pre.length + 2 + (encSize nm.labels + 1) + suf.length := by
    simp [putU16, hW]
    omega
  have e1 : pre ++ ((putU16 (Name.asBytesUncompressed nm).length ++
      Name.asBytesUncompressed nm) ++ suf) =
      pre ++ (putU16 (Name.asBytesUncompressed nm).length ++
      (Name.asBytesUncompressed nm ++ suf)) := by simp
  have hlen16 : getU16 (pre ++ ((putU16 (Name.asBytesUncompressed nm).length ++
      Name.asBytesUncompressed nm) ++ suf)) pre.length =
      (Name.asBytesUncompressed nm).length := by
    rw [e1]
    exact getU16_put_at _ _ _ (by rw [hW]; omega)
  have hnp : Name.parse (pre ++ ((putU16 (Name.asBytesUncompressed nm).length ++
      Name.asBytesUncompressed nm) ++ suf)) (pre.length + 2) =
      .ok (nm, pre.length + 2 + encSize nm.labels + 1) := by
    have e2 : pre ++ ((putU16 (Name.asBytesUncompressed nm).length ++
        Name.asBytesUncompressed nm) ++ suf) =
        (pre ++ putU16 (Name.asBytesUncompressed nm).length) ++
        (Name.asBytesUncompressed nm ++ suf) := by simp
    have hp : pre.length + 2 = (pre ++ putU16 (Name.asBytesUncompressed nm).length).length := by
      simp [putU16]
    rw [e2, hp]
    have := nameParse_emit nm (pre ++ putU16 (Name.asBytesUncompressed nm).length) suf hn
    rw [this]
  unfold parseDomainRdata
  rw [if_neg (by rw [hL]; omega), if_neg (by rw [hL]; omega), hnp]
  simp only [exceptBind_ok]
  rw [hlen16]
  rw [if_pos (by rw [hW]; omega)]
  simp only [Except.ok.injEq, Prod.mk.injEq]
  exact ⟨trivial, by rw [hW]; omega⟩

theorem mxParse_emit (v : Mx) (hw : Name.wf v.domain = true)
    (hne : v.domain.labels.isEmpty = false) (hp : v.preference < 65536) :
    ∃ bs, Mx.tryIntoBytes v = .ok bs ∧ ∀ pre suf : Bytes,
      Mx.parse (pre ++ (bs ++ suf)) pre.length = .ok (v, pre.length + bs.length) := by
  obtain ⟨pref, domain⟩ := v
  simp only at hw hne hp
  have hW : (Name.asBytesUncompressed domain).length = encSize domain.labels + 1 :=
    asBytes_length _
  obtain ⟨hlbl, hsz⟩ := Name.wf_spec domain hw
  have hge : 2 ≤ encSize domain.labels := by
    apply encSize_ge
    · exact fun l hl => (hlbl l hl).1
    · intro hcon
      rw [hcon] at hne
      simp at hne
  refine ⟨putU16 ((Name.asBytesUncompressed domain).length + 2) ++ putU16 pref ++
      Name.asBytesUncompressed domain, ?_, ?_⟩
  · simp only [Mx.tryIntoBytes]
    rw [if_neg (by omega), Nat.mod_eq_of_lt hp]
  · intro pre suf
    have e0 : (putU16 ((Name.asBytesUncompressed domain).length + 2) ++ putU16 pref ++
        Name.asBytesUncompressed domain) ++ suf =
        putU16 ((Name.asBytesUncompressed domain).length + 2) ++
        (putU16 pref ++ (Name.asBytesUncompressed domain ++ suf)) := by simp
    rw [e0]
    have hL : (pre ++ (putU16 ((Name.asBytesUncompressed domain).length + 2) ++
        (putU16 pref ++ (Name.asBytesUncompressed domain ++ suf)))).length =
        pre.length + 4 + (encSize domain.labels + 1) + suf.length := by
      simp [putU16, hW]
      omega
    have h1 : getU16 (pre ++ (putU16 ((Name.asBytesUncompressed domain).length + 2) ++
        (putU16 pref ++ (Name.asBytesUncompressed domain ++ suf)))) pre.length =
        (Name.asBytesUncompressed domain).length + 2 :=
      getU16_put_at _ _ _ (by omega)
    have h2 : getU16 (pre ++ (putU16 ((Name.asBytesUncompressed domain).length + 2) ++
        (putU16 pref ++ (Name.asBytesUncompressed domain ++ suf)))) (pre.length + 2) = pref := by
      have e2 : pre ++ (putU16 ((Name.asBytesUncompressed domain).length + 2) ++
          (putU16 pref ++ (Name.asBytesUncompressed domain ++ suf))) =
          (pre ++ putU16 ((Name.asBytesUncompressed domain).length + 2)) ++
          (putU16 pref ++ (Name.asBytesUncompressed domain ++ suf)) := by simp
      have hp2 : pre.length + 2 =
          (pre ++ putU16 ((Name.asBytesUncompressed domain).length + 2)).length := by
        simp [putU16]
      rw [e2, hp2]
      exact getU16_put_at _ _ _ hp
    have hnp : Name.parse (pre ++ (putU16 ((Name.asBytesUncompressed domain).length + 2) ++
        (putU16 pref ++ (Name.asBytesUncompressed domain ++ suf)))) (pre.length + 4) =
        .ok (domain, pre.length + 4 + encSize domain.labels + 1) := by
      have e3 : pre ++ (putU16 ((Name.asBytesUncompressed domain).length + 2) ++
          (putU16 pref ++ (Name.asBytesUncompressed domain ++ suf))) =
          (pre ++ putU16 ((Name.asBytesUncompressed domain).length + 2) ++ putU16 pref) ++
          (Name.asBytesUncompressed domain ++ suf) := by simp
      have hp3 : pre.length + 4 =
          (pre ++ putU16 ((Name.asBytesUncompressed domain).length + 2) ++ putU16 pref).length := by
        simp [putU16]
      rw [e3, hp3]
      have := nameParse_emit domain
        (pre ++ putU16 ((Name.asBytesUncompressed domain).length + 2) ++ putU16 pref) suf hw
      rw [this]
    unfold Mx.parse
    rw [if_neg (by rw [hL]; omega), hnp]
    simp only [exceptBind_ok]
    rw [h1]
    rw [if_pos (by omega)]
    simp only [Except.ok.injEq, Prod.mk.injEq, MInfo.mk.injEq]
    refine ⟨?_, ?_⟩
    · rw [h2]
    · simp only [List.length_append, putU16_length]
      omega

theorem minfoParse_emit (v : MInfo) (h1 : Name.wf v.rMailBox = true)
    (h2 : Name.wf v.eMailBox = true) :
    ∃ bs, MInfo.tryIntoBytes v = .ok bs ∧ ∀ pre suf : Bytes,
      MInfo.parse (pre ++ (bs ++ suf)) pre.length = .ok (v, pre.length + bs.length) := by
  obtain ⟨r, e⟩ := v
  simp only at h1 h2
  have hW1 : (Name.asBytesUncompressed r).length = encSize r.labels + 1 := asBytes_length _
  have hW2 : (Name.asBytesUncompressed e).length = encSize e.labels + 1 := asBytes_length _
  have hsz1 : encSize r.labels ≤ 252 := (Name.wf_spec r h1).2
  have hsz2 : encSize e.labels ≤ 252 := (Name.wf_spec e h2).2
  refine ⟨putU16 ((Name.asBytesUncompressed r).length + (Name.asBytesUncompressed e).length) ++
      Name.asBytesUncompressed r ++ Name.asBytesUncompressed e, ?_, ?_⟩
  · simp only [MInfo.tryIntoBytes]
    rw [Nat.mod_eq_of_lt (by omega)]
  · intro pre suf
    have e0 : (putU16 ((Name.asBytesUncompressed r).length + (Name.asBytesUncompressed e).length) ++
        Name.asBytesUncompressed r ++ Name.asBytesUncompressed e) ++ suf =
        putU16 ((Name.asBytesUncompressed r).length + (Name.asBytesUncompressed e).length) ++
        (Name.asBytesUncompressed r ++ (Name.asBytesUncompressed e ++ suf)) := by simp
    rw [e0]
    have hL : (pre ++ (putU16 ((Name.asBytesUncompressed r).length +
        (Name.asBytesUncompressed e).length) ++
        (Name.asBytesUncompressed r ++ (Name.asBytesUncompressed e ++ suf)))).length =
        pre.length + 2 + (encSize r.labels + 1) + (encSize e.labels + 1) + suf.length := by
      simp [putU16, hW1, hW2]
      omega
    have hn1 : Name.parse (pre ++ (putU16 ((Name.asBytesUncompressed r).length +
        (Name.asBytesUncompressed e).length) ++
        (Name.asBytesUncompressed r ++ (Name.asBytesUncompressed e ++ suf)))) (pre.length + 2) =
        .ok (r, pre.length + 2 + encSize r.labels + 1) := by
      have e1 : pre ++ (putU16 ((Name.asBytesUncompressed r).length +
          (Name.asBytesUncompressed e).length) ++
          (Name.asBytesUncompressed r ++ (Name.asBytesUncompressed e ++ suf))) =
          (pre ++ putU16 ((Name.asBytesUncompressed r).length +
          (Name.asBytesUncompressed e).length)) ++
          (Name.asBytesUncompressed r ++ (Name.asBytesUncompressed e ++ suf)) := by simp
      have hp1 : pre.length + 2 = (pre ++ putU16 ((Name.asBytesUncompressed r).length +
          (Name.asBytesUncompressed e).length)).length := by simp [putU16]
      rw [e1, hp1]
      exact nameParse_emit r _ _ h1
    have hn2 : Name.parse (pre ++ (putU16 ((Name.asBytesUncompressed r).length +
        (Name.asBytesUncompressed e).length) ++
        (Name.asBytesUncompressed r ++ (Name.asBytesUncompressed e ++ suf))))
        (pre.length + 2 + encSize r.labels + 1) =
        .ok (e, pre.length + 2 + encSize r.labels + 1 + encSize e.labels + 1) := by
      have e2 : pre ++ (putU16 ((Name.asBytesUncompressed r).length +
          (Name.asBytesUncompressed e).length) ++
          (Name.asBytesUncompressed r ++ (Name.asBytesUncompressed e ++ suf))) =
          (pre ++ putU16 ((Name.asBytesUncompressed r).length +
          (Name.asBytesUncompressed e).length) ++ Name.asBytesUncompressed r) ++
          (Name.asBytesUncompressed e ++ suf) := by simp
      have hp2 : pre.length + 2 + encSize r.labels + 1 =
          (pre ++ putU16 ((Name.asBytesUncompressed r).length +
          (Name.asBytesUncompressed e).length) ++ Name.asBytesUncompressed r).length := by
        simp [putU16, hW1]
        omega
      rw [e2, hp2]
      have := nameParse_emit e (pre ++ putU16 ((Name.asBytesUncompressed r).length +
          (Name.asBytesUncompressed e).length) ++ Name.asBytesUncompressed r) suf h2
      rw [this, ← hp2]
    unfold MInfo.parse
    rw [if_neg (by rw [hL]; omega), hn1]
    simp only [exceptBind_ok]
    rw [hn2]
    simp only [exceptBind_ok]
    simp only [Except.ok.injEq, Prod.mk.injEq]
    refine ⟨by trivial, ?_⟩
    simp only [List.length_append, putU16_length]
    omega

theorem nullParse_emit (v : Null) (h1 : 1 ≤ v.data.length) (h2 : v.data.length ≤ 65535) :
    ∃ bs, Null.tryIntoBytes v = .ok bs ∧ ∀ pre suf : Bytes,
      Null.parse (pre ++ (bs ++ suf)) pre.length = .ok (v, pre.length + bs.length) := by
  obtain ⟨d⟩ := v
  simp only at h1 h2
  refine ⟨putU16 d.length ++ d, ?_, ?_⟩
  · simp only [Null.tryIntoBytes]
    rw [Nat.mod_eq_of_lt (by omega)]
  · intro pre suf
    have e0 : (putU16 d.length ++ d) ++ suf = putU16 d.length ++ (d ++ suf) := by simp
    rw [e0]
    have hL : (pre ++ (putU16 d.length ++ (d ++ suf))).length =
        pre.length + 2 + d.length + suf.length := by
      simp [putU16]
      omega
    have hg : getU16 (pre ++ (putU16 d.length ++ (d ++ suf))) pre.length = d.length :=
      getU16_put_at _ _ _ (by omega)
    have hs : sliceBytes (pre ++ (putU16 d.length ++ (d ++ suf))) (pre.length + 2) d.length = d := by
      have e1 : pre ++ (putU16 d.length ++ (d ++ suf)) =
          (pre ++ putU16 d.length) ++ (d ++ suf) := by simp
      have hp1 : pre.length + 2 = (pre ++ putU16 d.length).length := by simp [putU16]
      rw [e1, hp1]
      exact sliceBytes_exact' _ _ _
    unfold Null.parse
    rw [if_neg (by rw [hL]; omega), hg]
    simp only [hs]
    simp only [Except.ok.injEq, Prod.mk.injEq]
    refine ⟨by trivial, ?_⟩
    simp only [List.length_append, putU16_length]
    omega

theorem getU16_at_of_eq (packet pre rest : Bytes) (x off : Nat) (hx : x < 65536)
    (he : packet = pre ++ (putU16 x ++ rest)) (ho : off = pre.length) :
    getU16 packet off = x := by
  subst he ho
  exact getU16_put_at _ _ _ hx

theorem getU32_at_of_eq (packet pre rest : Bytes) (x off : Nat) (hx : x < 4294967296)
    (he : packet = pre ++ (putU32 x ++ rest)) (ho : off = pre.length) :
    getU32 packet off = x := by
  subst he ho
  exact getU32_put_at _ _ _ hx

theorem nameParse_at_of_eq (packet pre suf : Bytes) (n : Name) (off en : Nat)
    (h : Name.wf n = true) (he : packet = pre ++ (Name.asBytesUncompressed n ++ suf))
    (ho : off = pre.length) (hen : en = pre.length + encSize n.labels + 1) :
    Name.parse packet off = .ok (n, en) := by
  subst he ho hen
  exact nameParse_emit n pre suf h

theorem soaParse_emit (v : Soa) (hm : Name.wf v.mname = true)
    (hmne : v.mname.labels.isEmpty = false) (hr : Name.wf v.rname = true)
    (hrne : v.rname.labels.isEmpty = false) (hs : v.serial < 4294967296)
    (hrf : v.refresh < 4294967296) (hrt : v.retry < 4294967296)
    (hex : v.expires < 4294967296) (hmi : v.minimum < 4294967296) :
    ∃ bs, Soa.tryIntoBytes v = .ok bs ∧ ∀ pre suf : Bytes,
      Soa.parse (pre ++ (bs ++ suf)) pre.length = .ok (v, pre.length + bs.length) := by
  obtain ⟨mn, rn, se, rf, rt, ex, mi⟩ := v
  simp only at hm hmne hr hrne hs hrf hrt hex hmi
  have hW1 : (Name.asBytesUncompressed mn).length = encSize mn.labels + 1 := asBytes_length _
  have hW2 : (Name.asBytesUncompressed rn).length = encSize rn.labels + 1 := asBytes_length _
  obtain ⟨hlbl1, hsz1⟩ := Name.wf_spec mn hm
  obtain ⟨hlbl2, hsz2⟩ := Name.wf_spec rn hr
  have hge1 : 2 ≤ encSize mn.labels := by
    apply encSize_ge _ (fun l hl => (hlbl1 l hl).1)
    intro hcon
    rw [hcon] at hmne
    simp at hmne
  have hge2 : 2 ≤ encSize rn.labels := by
    apply encSize_ge _ (fun l hl => (hlbl2 l hl).1)
    intro hcon
    rw [hcon] at hrne
    simp at hrne
  refine ⟨putU16 ((Name.asBytesUncompressed mn).length + (Name.asBytesUncompressed rn).length + 20) ++
      Name.asBytesUncompressed mn ++ Name.asBytesUncompressed rn ++ putU32 se ++ putU32 rf ++
      putU32 rt ++ putU32 ex ++ putU32 mi, ?_, ?_⟩
  · simp only [Soa.tryIntoBytes]
    rw [if_neg (by omega)]
  · intro pre suf
    have e0 : (putU16 ((Name.asBytesUncompressed mn).length + (Name.asBytesUncompressed rn).length + 20) ++
        Name.asBytesUncompressed mn ++ Name.asBytesUncompressed rn ++ putU32 se ++ putU32 rf ++
        putU32 rt ++ putU32 ex ++ putU32 mi) ++ suf =
        putU16 ((Name.asBytesUncompressed mn).length + (Name.asBytesUncompressed rn).length + 20) ++
        (Name.asBytesUncompressed mn ++ (Name.asBytesUncompressed rn ++ (putU32 se ++ (putU32 rf ++
        (putU32 rt ++ (putU32 ex ++ (putU32 mi ++ suf))))))) := by simp
    rw [e0]
    have hL : (pre ++ (putU16 ((Name.asBytesUncompressed mn).length +
        (Name.asBytesUncompressed rn).length + 20) ++
        (Name.asBytesUncompressed mn ++ (Name.asBytesUncompressed rn ++ (putU32 se ++ (putU32 rf ++
        (putU32 rt ++ (putU32 ex ++ (putU32 mi ++ suf))))))))).length =
        pre.length + 2 + (encSize mn.labels + 1) + (encSize rn.labels + 1) + 20 + suf.length := by
      simp [putU16, putU32, hW1, hW2]
      omega
    have hg16 : getU16 (pre ++ (putU16 ((Name.asBytesUncompressed mn).length +
        (Name.asBytesUncompressed rn).length + 20) ++
        (Name.asBytesUncompressed mn ++ (Name.asBytesUncompressed rn ++ (putU32 se ++ (putU32 rf ++
        (putU32 rt ++ (putU32 ex ++ (putU32 mi ++ suf))))))))) pre.length =
        (Name.asBytesUncompressed mn).length + (Name.asBytesUncompressed rn).length + 20 :=
      getU16_at_of_eq _ pre _ _ _ (by omega) rfl rfl
    have hn1 : Name.parse (pre ++ (putU16 ((Name.asBytesUncompressed mn).length +
        (Name.asBytesUncompressed rn).length + 20) ++
        (Name.asBytesUncompressed mn ++ (Name.asBytesUncompressed rn ++ (putU32 se ++ (putU32 rf ++
        (putU32 rt ++ (putU32 ex ++ (putU32 mi ++ suf))))))))) (pre.length + 2) =
        .ok (mn, pre.length + 2 + encSize mn.labels + 1) :=
      nameParse_at_of_eq _
        (pre ++ putU16 ((Name.asBytesUncompressed mn).length + (Name.asBytesUncompressed rn).length + 20))
        (Name.asBytesUncompressed rn ++ (putU32 se ++ (putU32 rf ++ (putU32 rt ++
          (putU32 ex ++ (putU32 mi ++ suf)))))) mn _ _ hm (by simp) (by simp [putU16]; try omega) (by simp [putU16]; try omega)
    have hn2 : Name.parse (pre ++ (putU16 ((Name.asBytesUncompressed mn).length +
        (Name.asBytesUncompressed rn).length + 20) ++
        (Name.asBytesUncompressed mn ++ (Name.asBytesUncompressed rn ++ (putU32 se ++ (putU32 rf ++
        (putU32 rt ++ (putU32 ex ++ (putU32 mi ++ suf)))))))))
        (pre.length + 2 + encSize mn.labels + 1) =
        .ok (rn, pre.length + 2 + encSize mn.labels + 1 + encSize rn.labels + 1) :=
      nameParse_at_of_eq _
        (pre ++ putU16 ((Name.asBytesUncompressed mn).length + (Name.asBytesUncompressed rn).length + 20) ++
          Name.asBytesUncompressed mn)
        (putU32 se ++ (putU32 rf ++ (putU32 rt ++ (putU32 ex ++ (putU32 mi ++ suf))))) rn _ _ hr (by simp) (by simp [putU16, hW1]; try omega) (by simp [putU16, hW1]; try omega)
    have hu1 : getU32 (pre ++ (putU16 ((Name.asBytesUncompressed mn).length +
        (Name.asBytesUncompressed rn).length + 20) ++
        (Name.asBytesUncompressed mn ++ (Name.asBytesUncompressed rn ++ (putU32 se ++ (putU32 rf ++
        (putU32 rt ++ (putU32 ex ++ (putU32 mi ++ suf)))))))))
        (pre.length + 2 + encSize mn.labels + 1 + encSize rn.labels + 1) = se :=
      getU32_at_of_eq _
        (pre ++ putU16 ((Name.asBytesUncompressed mn).length + (Name.asBytesUncompressed rn).length + 20) ++
          Name.asBytesUncompressed mn ++ Name.asBytesUncompressed rn)
        (putU32 rf ++ (putU32 rt ++ (putU32 ex ++ (putU32 mi ++ suf)))) _ _ hs (by simp) (by simp [putU16, hW1, hW2]; try omega)
    have hu2 : getU32 (pre ++ (putU16 ((Name.asBytesUncompressed mn).length +
        (Name.asBytesUncompressed rn).length + 20) ++
        (Name.asBytesUncompressed mn ++ (Name.asBytesUncompressed rn ++ (putU32 se ++ (putU32 rf ++
        (putU32 rt ++ (putU32 ex ++ (putU32 mi ++ suf)))))))))
        (pre.length + 2 + encSize mn.labels + 1 + encSize rn.labels + 1 + 4) = rf :=
      getU32_at_of_eq _
        (pre ++ putU16 ((Name.asBytesUncompressed mn).length + (Name.asBytesUncompressed rn).length + 20) ++
          Name.asBytesUncompressed mn ++ Name.asBytesUncompressed rn ++ putU32 se)
        (putU32 rt ++ (putU32 ex ++ (putU32 mi ++ suf))) _ _ hrf (by simp) (by simp [putU16, putU32, hW1, hW2]; try omega)
    have hu3 : getU32 (pre ++ (putU16 ((Name.asBytesUncompressed mn).length +
        (Name.asBytesUncompressed rn).length + 20) ++
        (Name.asBytesUncompressed mn ++ (Name.asBytesUncompressed rn ++ (putU32 se ++ (putU32 rf ++
        (putU32 rt ++ (putU32 ex ++ (putU32 mi ++ suf)))))))))
        (pre.length + 2 + encSize mn.labels + 1 + encSize rn.labels + 1 + 8) = rt :=
      getU32_at_of_eq _
        (pre ++ putU16 ((Name.asBytesUncompressed mn).length + (Name.asBytesUncompressed rn).length + 20) ++
          Name.asBytesUncompressed mn ++ Name.asBytesUncompressed rn ++ putU32 se ++ putU32 rf)
        (putU32 ex ++ (putU32 mi ++ suf)) _ _ hrt (by simp) (by simp [putU16, putU32, hW1, hW2]; try omega)
    have hu4 : getU32 (pre ++ (putU16 ((Name.asBytesUncompressed mn).length +
        (Name.asBytesUncompressed rn).length + 20) ++
        (Name.asBytesUncompressed mn ++ (Name.asBytesUncompressed rn ++ (putU32 se ++ (putU32 rf ++
        (putU32 rt ++ (putU32 ex ++ (putU32 mi ++ suf)))))))))
        (pre.length + 2 + encSize mn.labels + 1 + encSize rn.labels + 1 + 12) = ex :=
      getU32_at_of_eq _
        (pre ++ putU16 ((Name.asBytesUncompressed mn).length + (Name.asBytesUncompressed rn).length + 20) ++
          Name.asBytesUncompressed mn ++ Name.asBytesUncompressed rn ++ putU32 se ++ putU32 rf ++
          putU32 rt)
        (putU32 mi ++ suf) _ _ hex (by simp) (by simp [putU16, putU32, hW1, hW2]; try omega)
    have hu5 : getU32 (pre ++ (putU16 ((Name.asBytesUncompressed mn).length +
        (Name.asBytesUncompressed rn).length + 20) ++
        (Name.asBytesUncompressed mn ++ (Name.asBytesUncompressed rn ++ (putU32 se ++ (putU32 rf ++
        (putU32 rt ++ (putU32 ex ++ (putU32 mi ++ suf)))))))))
        (pre.length + 2 + encSize mn.labels + 1 + encSize rn.labels + 1 + 16) = mi :=
      getU32_at_of_eq _
        (pre ++ putU16 ((Name.asBytesUncompressed mn).length + (Name.asBytesUncompressed rn).length + 20) ++
          Name.asBytesUncompressed mn ++ Name.asBytesUncompressed rn ++ putU32 se ++ putU32 rf ++
          putU32 rt ++ putU32 ex)
        suf _ _ hmi (by simp) (by simp [putU16, putU32, hW1, hW2]; try omega)
    unfold Soa.parse
    rw [if_neg (by rw [hL]; omega), hn1]
    simp only [exceptBind_ok]
    rw [hn2]
    simp only [exceptBind_ok]
    rw [if_neg (by rw [hL]; omega), hg16]
    rw [if_neg (by omega)]
    rw [hu1, hu2, hu3, hu4, hu5]
    simp only [Except.ok.injEq, Prod.mk.injEq]
    refine ⟨by trivial, ?_⟩
    simp only [List.length_append, putU16_length, putU32_length]
    omega

theorem txtFoldl_shift (ts : List Bytes) :
    ∀ a : Nat, ts.foldl (fun acc t => acc + t.length + 1) a =
      a + ts.foldl (fun acc t => acc + t.length + 1) 0 := by
  induction ts with
  | nil => intro a; simp
  | cons t ts ih =>
    intro a
    simp only [List.foldl_cons]
    rw [ih (a + t.length + 1), ih (0 + t.length + 1)]
    omega

theorem txtEnc_length (ts : List Bytes) :
    (ts.flatMap (fun t => t.length % 256 :: t)).length =
      ts.foldl (fun acc t => acc + t.length + 1) 0 := by
  induction ts with
  | nil => rfl
  | cons t ts ih =>
    simp only [List.flatMap_cons, List.length_append, List.length_cons, List.foldl_cons]
    rw [txtFoldl_shift ts (0 + t.length + 1), ih]
    omega

theorem txtLoop_emit (ts : List Bytes) (h : ∀ t ∈ ts, t.length ≤ 255) :
    ∀ (pre suf : Bytes) (read len : Nat),
      len = read + ts.foldl (fun acc t => acc + t.length + 1) 0 →
      txtLoop (pre ++ (ts.flatMap (fun t => t.length % 256 :: t) ++ suf)) pre.length read len = ts := by
  induction ts with
  | nil =>
    intro pre suf read len hlen
    simp only [List.foldl_nil] at hlen
    rw [txtLoop, if_neg (by omega)]
  | cons t ts ih =>
    intro pre suf read len hlen
    have ht : t.length ≤ 255 := h t (List.mem_cons_self t ts)
    have hts : ∀ u ∈ ts, u.length ≤ 255 := fun u hu => h u (List.mem_cons_of_mem t hu)
    have hf : (t :: ts).foldl (fun acc u => acc + u.length + 1) 0 =
        t.length + 1 + ts.foldl (fun acc u => acc + u.length + 1) 0 := by
      simp only [List.foldl_cons]
      rw [txtFoldl_shift ts (0 + t.length + 1)]
      omega
    rw [hf] at hlen
    have hshape : (t :: ts).flatMap (fun u => u.length % 256 :: u) ++ suf =
        (t.length % 256) :: (t ++ (ts.flatMap (fun u => u.length % 256 :: u) ++ suf)) := by
      simp [List.flatMap_cons]
    rw [hshape]
    have hb : byteAt (pre ++ ((t.length % 256) :: (t ++ (ts.flatMap (fun u => u.length % 256 :: u) ++ suf)))) pre.length = t.length := by
      rw [byteAt_cons_at]
      omega
    rw [txtLoop, if_pos (by omega), hb]
    have hslice : sliceBytes (pre ++ ((t.length % 256) :: (t ++ (ts.flatMap (fun u => u.length % 256 :: u) ++ suf)))) (pre.length + 1) t.length = t := by
      have e1 : pre ++ ((t.length % 256) :: (t ++ (ts.flatMap (fun u => u.length % 256 :: u) ++ suf))) =
          (pre ++ [t.length % 256]) ++ (t ++ (ts.flatMap (fun u => u.length % 256 :: u) ++ suf)) := by
        simp
      have hp1 : pre.length + 1 = (pre ++ [t.length % 256]).length := by simp
      rw [e1, hp1]
      exact sliceBytes_exact' _ _ _
    simp only [hslice]
    have e2 : pre ++ ((t.length % 256) :: (t ++ (ts.flatMap (fun u => u.length % 256 :: u) ++ suf))) =
        (pre ++ ((t.length % 256) :: t)) ++ (ts.flatMap (fun u => u.length % 256 :: u) ++ suf) := by
      simp
    have hp2 : pre.length + 1 + t.length = (pre ++ ((t.length % 256) :: t)).length := by
      simp
      omega
    rw [e2, hp2, ih hts (pre ++ ((t.length % 256) :: t)) suf (read + t.length + 1) len (by omega)]

theorem txtParse_emit (v : Txt) (hall : ∀ t ∈ v.text, t.length ≤ 255)
    (htot : v.text.foldl (fun acc t => acc + t.length + 1) 0 ≤ 65535) :
    ∃ bs, Txt.tryIntoBytes v = .ok bs ∧ ∀ pre suf : Bytes,
      Txt.parse (pre ++ (bs ++ suf)) pre.length = .ok (v, pre.length + bs.length) := by
  obtain ⟨ts⟩ := v
  simp only at hall htot
  refine ⟨putU16 (ts.foldl (fun acc t => acc + t.length + 1) 0) ++
      ts.flatMap (fun t => t.length % 256 :: t), ?_, ?_⟩
  · simp only [Txt.tryIntoBytes]
    rw [if_neg (by omega)]
  · intro pre suf
    have e0 : (putU16 (ts.foldl (fun acc t => acc + t.length + 1) 0) ++
        ts.flatMap (fun t => t.length % 256 :: t)) ++ suf =
        putU16 (ts.foldl (fun acc t => acc + t.length + 1) 0) ++
        (ts.flatMap (fun t => t.length % 256 :: t) ++ suf) := by simp
    rw [e0]
    have hL : (pre ++ (putU16 (ts.foldl (fun acc t => acc + t.length + 1) 0) ++
        (ts.flatMap (fun t => t.length % 256 :: t) ++ suf))).length =
        pre.length + 2 + ts.foldl (fun acc t => acc + t.length + 1) 0 + suf.length := by
      simp only [List.length_append, putU16_length, txtEnc_length]
      omega
    have hg : getU16 (pre ++ (putU16 (ts.foldl (fun acc t => acc + t.length + 1) 0) ++
        (ts.flatMap (fun t => t.length % 256 :: t) ++ suf))) pre.length =
        ts.foldl (fun acc t => acc + t.length + 1) 0 :=
      getU16_put_at _ _ _ (by omega)
    have hloop : txtLoop (pre ++ (putU16 (ts.foldl (fun acc t => acc + t.length + 1) 0) ++
        (ts.flatMap (fun t => t.length % 256 :: t) ++ suf))) (pre.length + 2) 0
        (ts.foldl (fun acc t => acc + t.length + 1) 0) = ts := by
      have e1 : pre ++ (putU16 (ts.foldl (fun acc t => acc + t.length + 1) 0) ++
          (ts.flatMap (fun t => t.length % 256 :: t) ++ suf)) =
          (pre ++ putU16 (ts.foldl (fun acc t => acc + t.length + 1) 0)) ++
          (ts.flatMap (fun t => t.length % 256 :: t) ++ suf) := by simp
      have hp1 : pre.length + 2 =
          (pre ++ putU16 (ts.foldl (fun acc t => acc + t.length + 1) 0)).length := by
        simp [putU16]
      rw [e1, hp1]
      exact txtLoop_emit ts hall _ suf 0 _ (by omega)
    unfold Txt.parse
    rw [if_neg (by rw [hL]; omega), hg, if_neg (by rw [hL]; omega)]
    simp only [hloop]
    simp only [Except.ok.injEq, Prod.mk.injEq]
    refine ⟨by trivial, ?_⟩
    simp only [List.length_append, putU16_length, txtEnc_length]
    omega

theorem rdataParse_emit (rd : RRData) (hw : RRData.wf rd = true) :
    ∃ bs, RRData.tryIntoBytes rd = .ok bs ∧ ∀ pre suf : Bytes,
      rdataParse rd.getType (pre ++ (bs ++ suf)) pre.length = .ok (rd, pre.length + bs.length) := by
  cases rd with
  | a v =>
    simp only [RRData.wf, decide_eq_true_eq] at hw
    refine ⟨putU16 4 ++ putU32 v.addr, rfl, fun pre suf => ?_⟩
    simp only [RRData.getType, rdataParse]
    rw [aParse_emit v pre suf hw]
    simp only [Except.map, List.length_append, putU16_length, putU32_length]
  | aaaa v =>
    simp only [RRData.wf, decide_eq_true_eq] at hw
    refine ⟨putU16 16 ++ putU128 v.addr, rfl, fun pre suf => ?_⟩
    simp only [RRData.getType, rdataParse]
    rw [aaaaParse_emit v pre suf hw]
    simp only [Except.map, List.length_append, putU16_length]
    have h128 : (putU128 v.addr).length = 16 := rfl
    rw [h128]
  | cname v =>
    obtain ⟨nm⟩ := v
    simp only [RRData.wf, Bool.and_eq_true, Bool.not_eq_true'] at hw
    obtain ⟨hn, hne⟩ := hw
    have hsz : encSize nm.labels ≤ 252 := (Name.wf_spec nm hn).2
    have hW : (Name.asBytesUncompressed nm).length = encSize nm.labels + 1 := asBytes_length nm
    refine ⟨putU16 (Name.asBytesUncompressed nm).length ++ Name.asBytesUncompressed nm, ?_,
      fun pre suf => ?_⟩
    · simp only [RRData.tryIntoBytes, Cname.tryIntoBytes, domainRdataBytes]
      rw [if_neg (by omega)]
    · simp only [RRData.getType, rdataParse, Cname.parse]
      rw [parseDomainRdata_emit nm pre suf hn (by simp [hne])]
      simp only [Except.map, List.length_append, putU16_length]
      have : pre.length + 2 + (Name.asBytesUncompressed nm).length =
          pre.length + (2 + (Name.asBytesUncompressed nm).length) := by omega
      rw [this]
  | ptr v =>
    obtain ⟨nm⟩ := v
    simp only [RRData.wf, Bool.and_eq_true, Bool.not_eq_true'] at hw
    obtain ⟨hn, hne⟩ := hw
    have hsz : encSize nm.labels ≤ 252 := (Name.wf_spec nm hn).2
    have hW : (Name.asBytesUncompressed nm).length = encSize nm.labels + 1 := asBytes_length nm
    refine ⟨putU16 (Name.asBytesUncompressed nm).length ++ Name.asBytesUncompressed nm, ?_,
      fun pre suf => ?_⟩
    · simp only [RRData.tryIntoBytes, Ptr.tryIntoBytes, domainRdataBytes]
      rw [if_neg (by omega)]
    · simp only [RRData.getType, rdataParse, Ptr.parse]
      rw [parseDomainRdata_emit nm pre suf hn (by simp [hne])]
      simp only [Except.map, List.length_append, putU16_length]
      have : pre.length + 2 + (Name.asBytesUncompressed nm).length =
          pre.length + (2 + (Name.asBytesUncompressed nm).length) := by omega
      rw [this]
  | mb v =>
    obtain ⟨nm⟩ := v
    simp only [RRData.wf, Bool.and_eq_true, Bool.not_eq_true'] at hw
    obtain ⟨hn, hne⟩ := hw
    have hsz : encSize nm.labels ≤ 252 := (Name.wf_spec nm hn).2
    have hW : (Name.asBytesUncompressed nm).length = encSize nm.labels + 1 := asBytes_length nm
    refine ⟨putU16 (Name.asBytesUncompressed nm).length ++ Name.asBytesUncompressed nm, ?_,
      fun pre suf => ?_⟩
    · simp only [RRData.tryIntoBytes, Mb.tryIntoBytes, domainRdataBytes]
      rw [if_neg (by omega)]
    · simp only [RRData.getType, rdataParse, Mb.parse]
      rw [parseDomainRdata_emit nm pre suf hn (by simp [hne])]
      simp only [Except.map, List.length_append, putU16_length]
      have : pre.length + 2 + (Name.asBytesUncompressed nm).length =
          pre.length + (2 + (Name.asBytesUncompressed nm).length) := by omega
      rw [this]
  | mg v =>
    obtain ⟨nm⟩ := v
    simp only [RRData.wf, Bool.and_eq_true, Bool.not_eq_true'] at hw
    obtain ⟨hn, hne⟩ := hw
    have hsz : encSize nm.labels ≤ 252 := (Name.wf_spec nm hn).2
    have hW : (Name.asBytesUncompressed nm).length = encSize nm.labels + 1 := asBytes_length nm
    refine ⟨putU16 (Name.asBytesUncompressed nm).length ++ Name.asBytesUncompressed nm, ?_,
      fun pre suf => ?_⟩
    · simp only [RRData.tryIntoBytes, Mg.tryIntoBytes, domainRdataBytes]
      rw [if_neg (by omega)]
    · simp only [RRData.getType, rdataParse, Mg.parse]
      rw [parseDomainRdata_emit nm pre suf hn (by simp [hne])]
      simp only [Except.map, List.length_append, putU16_length]
      have : pre.length + 2 + (Name.asBytesUncompressed nm).length =
          pre.length + (2 + (Name.asBytesUncompressed nm).length) := by omega
      rw [this]
  | mr v =>
    obtain ⟨nm⟩ := v
    simp only [RRData.wf, Bool.and_eq_true, Bool.not_eq_true'] at hw
    obtain ⟨hn, hne⟩ := hw
    have hsz : encSize nm.labels ≤ 252 := (Name.wf_spec nm hn).2
    have hW : (Name.asBytesUncompressed nm).length = encSize nm.labels + 1 := asBytes_length nm
    refine ⟨putU16 (Name.asBytesUncompressed nm).length ++ Name.asBytesUncompressed nm, ?_,
      fun pre suf => ?_⟩
    · simp only [RRData.tryIntoBytes, Mr.tryIntoBytes, domainRdataBytes]
      rw [if_neg (by omega)]
    · simp only [RRData.getType, rdataParse, Mr.parse]
      rw [parseDomainRdata_emit nm pre suf hn (by simp [hne])]
      simp only [Except.map, List.length_append, putU16_length]
      have : pre.length + 2 + (Name.asBytesUncompressed nm).length =
          pre.length + (2 + (Name.asBytesUncompressed nm).length) := by omega
      rw [this]
  | mx v =>
    simp only [RRData.wf, Bool.and_eq_true, Bool.not_eq_true', decide_eq_true_eq] at hw
    obtain ⟨⟨hp, hn⟩, hne⟩ := hw
    obtain ⟨bs, h1, h2⟩ := mxParse_emit v hn hne hp
    refine ⟨bs, ?_, fun pre suf => ?_⟩
    · simp only [RRData.tryIntoBytes]
      exact h1
    · simp only [RRData.getType, rdataParse]
      rw [h2 pre suf]
      simp only [Except.map]
  | soa v =>
    simp only [RRData.wf, Bool.and_eq_true, Bool.not_eq_true', decide_eq_true_eq] at hw
    obtain ⟨⟨⟨⟨⟨⟨⟨⟨hm, hmne⟩, hr⟩, hrne⟩, hs⟩, hrf⟩, hrt⟩, hex⟩, hmi⟩ := hw
    obtain ⟨bs, h1, h2⟩ := soaParse_emit v hm hmne hr hrne hs hrf hrt hex hmi
    refine ⟨bs, ?_, fun pre suf => ?_⟩
    · simp only [RRData.tryIntoBytes]
      exact h1
    · simp only [RRData.getType, rdataParse]
      rw [h2 pre suf]
      simp only [Except.map]
  | minfo v =>
    simp only [RRData.wf, Bool.and_eq_true] at hw
    obtain ⟨h1, h2⟩ := hw
    obtain ⟨bs, hb1, hb2⟩ := minfoParse_emit v h1 h2
    refine ⟨bs, ?_, fun pre suf => ?_⟩
    · simp only [RRData.tryIntoBytes]
      exact hb1
    · simp only [RRData.getType, rdataParse]
      rw [hb2 pre suf]
      simp only [Except.map]
  | txt v =>
    simp only [RRData.wf, Bool.and_eq_true, List.all_eq_true, decide_eq_true_eq] at hw
    obtain ⟨h1, h2⟩ := hw
    obtain ⟨bs, hb1, hb2⟩ := txtParse_emit v h1 h2
    refine ⟨bs, ?_, fun pre suf => ?_⟩
    · simp only [RRData.tryIntoBytes]
      exact hb1
    · simp only [RRData.getType, rdataParse]
      rw [hb2 pre suf]
      simp only [Except.map]
  | null v =>
    simp only [RRData.wf, Bool.and_eq_true, decide_eq_true_eq] at hw
    obtain ⟨h1, h2⟩ := hw
    obtain ⟨bs, hb1, hb2⟩ := nullParse_emit v h1 h2
    refine ⟨bs, ?_, fun pre suf => ?_⟩
    · simp only [RRData.tryIntoBytes]
      exact hb1
    · simp only [RRData.getType, rdataParse]
      rw [hb2 pre suf]
      simp only [Except.map]
  | ns v => simp [RRData.wf] at hw
  | wks v => simp [RRData.wf] at hw
  | hinfo v => simp [RRData.wf] at hw
  | unknown v => simp [RRData.wf] at hw

theorem wf_getType_canon (rd : RRData) (hw : RRData.wf rd = true) :
    RRType.ofNat (RRType.toNat rd.getType) = rd.getType ∧ RRType.toNat rd.getType < 65536 := by
  cases rd with
  | a v => exact ⟨rfl, by simp only [RRData.getType]; decide⟩
  | aaaa v => exact ⟨rfl, by simp only [RRData.getType]; decide⟩
  | cname v => exact ⟨rfl, by simp only [RRData.getType]; decide⟩
  | ptr v => exact ⟨rfl, by simp only [RRData.getType]; decide⟩
  | mb v => exact ⟨rfl, by simp only [RRData.getType]; decide⟩
  | mg v => exact ⟨rfl, by simp only [RRData.getType]; decide⟩
  | mr v => exact ⟨rfl, by simp only [RRData.getType]; decide⟩
  | mx v => exact ⟨rfl, by simp only [RRData.getType]; decide⟩
  | soa v => exact ⟨rfl, by simp only [RRData.getType]; decide⟩
  | minfo v => exact ⟨rfl, by simp only [RRData.getType]; decide⟩
  | txt v => exact ⟨rfl, by simp only [RRData.getType]; decide⟩
  | null v => exact ⟨rfl, by simp only [RRData.getType]; decide⟩
  | ns v => simp [RRData.wf] at hw
  | wks v => simp [RRData.wf] at hw
  | hinfo v => simp [RRData.wf] at hw
  | unknown v => simp [RRData.wf] at hw

theorem rrParse_emit (rr : RR) (hw : RR.wf rr = true) :
    ∃ bs, RR.intoBytes rr = .ok bs ∧ ∀ pre suf : Bytes,
      RR.parse (pre ++ (bs ++ suf)) pre.length = .ok (rr, pre.length + bs.length) := by
  obtain ⟨domain, ttl, ty, cls, rdata⟩ := rr
  simp only [RR.wf, Bool.and_eq_true, beq_iff_eq, decide_eq_true_eq] at hw
  obtain ⟨⟨⟨⟨hdn, httlb⟩, hclsc⟩, hteq⟩, hrdw⟩ := hw
  subst hteq
  obtain ⟨htyEq, htyLt⟩ := wf_getType_canon rdata hrdw
  obtain ⟨hclsEq, hclsLt⟩ := rrclsCanonSpec cls hclsc
  obtain ⟨rdbs, h1, h2⟩ := rdataParse_emit rdata hrdw
  refine ⟨Name.asBytesUncompressed domain ++ putU16 (RRType.toNat rdata.getType) ++
      putU16 (RRCls.toNat cls) ++ putU32 ttl ++ rdbs, ?_, fun pre suf => ?_⟩
  · simp only [RR.intoBytes]
    rw [h1]
    simp only [exceptBind_ok]
  · have e0 : (Name.asBytesUncompressed domain ++ putU16 (RRType.toNat rdata.getType) ++
        putU16 (RRCls.toNat cls) ++ putU32 ttl ++ rdbs) ++ suf =
        Name.asBytesUncompressed domain ++ (putU16 (RRType.toNat rdata.getType) ++
        (putU16 (RRCls.toNat cls) ++ (putU32 ttl ++ (rdbs ++ suf)))) := by simp
    rw [e0]
    have hnp : Name.parse (pre ++ (Name.asBytesUncompressed domain ++
        (putU16 (RRType.toNat rdata.getType) ++ (putU16 (RRCls.toNat cls) ++
        (putU32 ttl ++ (rdbs ++ suf)))))) pre.length =
        .ok (domain, pre.length + encSize domain.labels + 1) :=
      nameParse_emit domain pre _ hdn
    have hty : getU16 (pre ++ (Name.asBytesUncompressed domain ++
        (putU16 (RRType.toNat rdata.getType) ++ (putU16 (RRCls.toNat cls) ++
        (putU32 ttl ++ (rdbs ++ suf)))))) (pre.length + encSize domain.labels + 1) =
        RRType.toNat rdata.getType :=
      getU16_at_of_eq _ (pre ++ Name.asBytesUncompressed domain)
        (putU16 (RRCls.toNat cls) ++ (putU32 ttl ++ (rdbs ++ suf))) _ _ htyLt (by simp)
        (by simp [asBytes_length]; try omega)
    have hcls : getU16 (pre ++ (Name.asBytesUncompressed domain ++
        (putU16 (RRType.toNat rdata.getType) ++ (putU16 (RRCls.toNat cls) ++
        (putU32 ttl ++ (rdbs ++ suf)))))) (pre.length + encSize domain.labels + 1 + 2) =
        RRCls.toNat cls :=
      getU16_at_of_eq _ (pre ++ Name.asBytesUncompressed domain ++
          putU16 (RRType.toNat rdata.getType))
        (putU32 ttl ++ (rdbs ++ suf)) _ _ hclsLt (by simp)
        (by simp [asBytes_length, putU16]; try omega)
    have httl : getU32 (pre ++ (Name.asBytesUncompressed domain ++
        (putU16 (RRType.toNat rdata.getType) ++ (putU16 (RRCls.toNat cls) ++
        (putU32 ttl ++ (rdbs ++ suf)))))) (pre.length + encSize domain.labels + 1 + 4) = ttl :=
      getU32_at_of_eq _ (pre ++ Name.asBytesUncompressed domain ++
          putU16 (RRType.toNat rdata.getType) ++ putU16 (RRCls.toNat cls))
        (rdbs ++ suf) _ _ httlb (by simp)
        (by simp [asBytes_length, putU16]; try omega)
    have hrd : rdataParse rdata.getType (pre ++ (Name.asBytesUncompressed domain ++
        (putU16 (RRType.toNat rdata.getType) ++ (putU16 (RRCls.toNat cls) ++
        (putU32 ttl ++ (rdbs ++ suf)))))) (pre.length + encSize domain.labels + 1 + 8) =
        .ok (rdata, pre.length + encSize domain.labels + 1 + 8 + rdbs.length) := by
      have hee : pre ++ (Name.asBytesUncompressed domain ++
          (putU16 (RRType.toNat rdata.getType) ++ (putU16 (RRCls.toNat cls) ++
          (putU32 ttl ++ (rdbs ++ suf))))) =
          (pre ++ Name.asBytesUncompressed domain ++ putU16 (RRType.toNat rdata.getType) ++
           putU16 (RRCls.toNat cls) ++ putU32 ttl) ++ (rdbs ++ suf) := by simp
      have hpp : pre.length + encSize domain.labels + 1 + 8 =
          (pre ++ Name.asBytesUncompressed domain ++ putU16 (RRType.toNat rdata.getType) ++
           putU16 (RRCls.toNat cls) ++ putU32 ttl).length := by
        simp [asBytes_length, putU16, putU32]
        try omega
      rw [hee, hpp]
      exact h2 _ suf
    unfold RR.parse
    rw [hnp]
    simp only [exceptBind_ok]
    rw [hty, htyEq, hcls, hclsEq, httl, hrd]
    simp only [exceptBind_ok]
    simp only [Except.ok.injEq, Prod.mk.injEq]
    refine ⟨by trivial, ?_⟩
    simp only [List.length_append, putU16_length, putU32_length, asBytes_length]
    omega

theorem rrLoop_emit (rrs : List RR) (hw : ∀ rr ∈ rrs, RR.wf rr = true) :
    ∃ bss : List Bytes, rrs.mapM (fun rr => rr.intoBytes.toOption) = some bss ∧
      ∀ (pre suf : Bytes) (acc : List RR),
        rrLoop (pre ++ (bss.flatten ++ suf)) rrs.length pre.length acc =
          .ok (acc ++ rrs, pre.length + bss.flatten.length) := by
  induction rrs with
  | nil =>
    refine ⟨[], rfl, fun pre suf acc => ?_⟩
    simp [rrLoop]
  | cons rr rrs ih =>
    obtain ⟨bss, hm, hloop⟩ := ih (fun r hr => hw r (List.mem_cons_of_mem rr hr))
    obtain ⟨bs, h1, h2⟩ := rrParse_emit rr (hw rr (List.mem_cons_self rr rrs))
    refine ⟨bs :: bss, ?_, fun pre suf acc => ?_⟩
    · rw [List.mapM_cons]
      rw [h1, hm]
      rfl
    · have e0 : (bs :: bss).flatten ++ suf = bs ++ (bss.flatten ++ suf) := by simp
      rw [List.length_cons, e0]
      have hstep : RR.parse (pre ++ (bs ++ (bss.flatten ++ suf))) pre.length =
          .ok (rr, pre.length + bs.length) := h2 pre (bss.flatten ++ suf)
      rw [rrLoop, hstep]
      simp only [exceptBind_ok]
      have hee : pre ++ (bs ++ (bss.flatten ++ suf)) = (pre ++ bs) ++ (bss.flatten ++ suf) := by
        simp
      have hpp : pre.length + bs.length = (pre ++ bs).length := by simp
      rw [hee, hpp, hloop (pre ++ bs) suf (acc ++ [rr])]
      simp only [Except.ok.injEq, Prod.mk.injEq, List.append_assoc, List.singleton_append,
        List.flatten_cons, List.length_append]
      refine ⟨trivial, by omega⟩

theorem opCanonSpec (op : Op) (h : Op.canon op = true) :
    Op.ofNat (Op.toNat op) = op ∧ Op.toNat op < 16 := by
  simp only [Op.canon, Bool.and_eq_true, beq_iff_eq, decide_eq_true_eq] at h
  exact h

theorem rcodeCanonSpec (rc : Rcode) (h : Rcode.canon rc = true) :
    Rcode.ofNat (Rcode.toNat rc) = rc ∧ Rcode.toNat rc < 16 := by
  simp only [Rcode.canon, Bool.and_eq_true, beq_iff_eq, decide_eq_true_eq] at h
  exact h

theorem byteAt_at_of_eq (packet pre rest : Bytes) (x off : Nat) (hx : x < 256)
    (he : packet = pre ++ (x :: rest)) (ho : off = pre.length) :
    byteAt packet off = x := by
  subst he ho
  rw [byteAt_cons_at]
  omega

theorem headerA_fields (q aa tc rd : Bool) (op a : Nat) (hop : op < 16)
    (ha : a = (cond q 0 1) * 128 + op * 8 + (cond aa 1 0) * 4 + (cond tc 1 0) * 2 + cond rd 1 0) :
    decide (a < 128) = q ∧ a / 8 % 16 = op ∧ (a / 4 % 2 == 1) = aa ∧
    (a / 2 % 2 == 1) = tc ∧ (a % 2 == 1) = rd ∧ a < 256 := by
  subst ha
  cases q <;> cases aa <;> cases tc <;> cases rd <;>
    refine ⟨?_, ?_, ?_, ?_, ?_, ?_⟩ <;>
    simp only [cond, decide_eq_true_eq, decide_eq_false_iff_not, beq_iff_eq,
      beq_eq_false_iff_ne, ne_eq, Nat.not_lt] <;>
    omega

theorem headerB_fields (ra : Bool) (z rc b : Nat) (hz : z < 8) (hrc : rc < 16)
    (hb : b = (cond ra 1 0) * 128 + z * 16 + rc) :
    decide (128 ≤ b) = ra ∧ b / 16 % 8 = z ∧ b % 16 = rc ∧ b < 256 := by
  subst hb
  cases ra <;>
    refine ⟨?_, ?_, ?_, ?_⟩ <;>
    simp only [cond, decide_eq_true_eq, decide_eq_false_iff_not, Nat.not_le] <;>
    omega

theorem headerParse_emit (h : Header) (rest : Bytes) (hw : Header.wf h = true)
    (hq : h.questions ≤ 1) :
    Header.parse (Header.tryIntoBytes h ++ rest) 0 = .ok h := by
  obtain ⟨id, isQ, op, aa, tc, rd, ra, z, rc, qd, an, ns, ar⟩ := h
  simp only [Header.wf, Bool.and_eq_true, decide_eq_true_eq] at hw
  obtain ⟨⟨⟨⟨⟨⟨⟨hid, hop⟩, hz⟩, hrc⟩, hqd⟩, han⟩, hns⟩, har⟩ := hw
  simp only at hq
  obtain ⟨hopEq, hopLt⟩ := opCanonSpec op hop
  obtain ⟨hrcEq, hrcLt⟩ := rcodeCanonSpec rc hrc
  simp only [Header.tryIntoBytes]
  rw [Nat.mod_eq_of_lt hopLt, Nat.mod_eq_of_lt hz, Nat.mod_eq_of_lt hrcLt]
  obtain ⟨ha1, ha2, ha3, ha4, ha5, ha6⟩ :=
    headerA_fields isQ aa tc rd (Op.toNat op)
      ((cond isQ 0 1) * 128 + Op.toNat op * 8 + (cond aa 1 0) * 4 + (cond tc 1 0) * 2 +
        cond rd 1 0) hopLt rfl
  obtain ⟨hb1, hb2, hb3, hb4⟩ :=
    headerB_fields ra z (Rcode.toNat rc)
      ((cond ra 1 0) * 128 + z * 16 + Rcode.toNat rc) hz hrcLt rfl
  set A := (cond isQ 0 1) * 128 + Op.toNat op * 8 + (cond aa 1 0) * 4 + (cond tc 1 0) * 2 +
      cond rd 1 0 with hAdef
  set B := (cond ra 1 0) * 128 + z * 16 + Rcode.toNat rc with hBdef
  have hshape : (putU16 id ++ [A, B] ++ putU16 qd ++ putU16 an ++ putU16 ns ++ putU16 ar) ++
      rest =
      putU16 id ++ (A :: (B ::
        (putU16 qd ++ (putU16 an ++ (putU16 ns ++ (putU16 ar ++ rest)))))) := by simp
  rw [hshape]
  have hlen : (putU16 id ++ (A :: (B ::
      (putU16 qd ++ (putU16 an ++ (putU16 ns ++ (putU16 ar ++ rest))))))).length =
      12 + rest.length := by
    simp [putU16]
    omega
  have hgid : getU16 (putU16 id ++ (A :: (B ::
      (putU16 qd ++ (putU16 an ++ (putU16 ns ++ (putU16 ar ++ rest))))))) 0 = id :=
    getU16_at_of_eq _ []
      (A :: (B :: (putU16 qd ++ (putU16 an ++ (putU16 ns ++ (putU16 ar ++ rest)))))) id 0
      hid (by simp) rfl
  have hga : byteAt (putU16 id ++ (A :: (B ::
      (putU16 qd ++ (putU16 an ++ (putU16 ns ++ (putU16 ar ++ rest))))))) 2 = A :=
    byteAt_at_of_eq _ (putU16 id)
      (B :: (putU16 qd ++ (putU16 an ++ (putU16 ns ++ (putU16 ar ++ rest))))) A 2
      ha6 (by simp) (by simp [putU16])
  have hgb : byteAt (putU16 id ++ (A :: (B ::
      (putU16 qd ++ (putU16 an ++ (putU16 ns ++ (putU16 ar ++ rest))))))) 3 = B :=
    byteAt_at_of_eq _ (putU16 id ++ [A])
      (putU16 qd ++ (putU16 an ++ (putU16 ns ++ (putU16 ar ++ rest)))) B 3
      hb4 (by simp) (by simp [putU16])
  have hgqd : getU16 (putU16 id ++ (A :: (B ::
      (putU16 qd ++ (putU16 an ++ (putU16 ns ++ (putU16 ar ++ rest))))))) 4 = qd :=
    getU16_at_of_eq _ (putU16 id ++ [A, B])
      (putU16 an ++ (putU16 ns ++ (putU16 ar ++ rest))) qd 4 hqd (by simp) (by simp [putU16])
  have hgan : getU16 (putU16 id ++ (A :: (B ::
      (putU16 qd ++ (putU16 an ++ (putU16 ns ++ (putU16 ar ++ rest))))))) 6 = an :=
    getU16_at_of_eq _ (putU16 id ++ [A, B] ++ putU16 qd)
      (putU16 ns ++ (putU16 ar ++ rest)) an 6 han (by simp) (by simp [putU16])
  have hgns : getU16 (putU16 id ++ (A :: (B ::
      (putU16 qd ++ (putU16 an ++ (putU16 ns ++ (putU16 ar ++ rest))))))) 8 = ns :=
    getU16_at_of_eq _ (putU16 id ++ [A, B] ++ putU16 qd ++ putU16 an)
      (putU16 ar ++ rest) ns 8 hns (by simp) (by simp [putU16])
  have hgar : getU16 (putU16 id ++ (A :: (B ::
      (putU16 qd ++ (putU16 an ++ (putU16 ns ++ (putU16 ar ++ rest))))))) 10 = ar :=
    getU16_at_of_eq _ (putU16 id ++ [A, B] ++ putU16 qd ++ putU16 an ++ putU16 ns)
      rest ar 10 har (by simp) (by simp [putU16])
  unfold Header.parse
  rw [if_neg (by rw [hlen]; omega)]
  rw [hgid, hga, hgb, hgqd, hgan, hgns, hgar]
  simp only [ha1, ha2, hopEq, ha3, ha4, ha5, hb1, hb2, hb3, hrcEq]
  rw [if_neg (by omega)]

theorem optionBind_some {α β : Type} (a : α) (f : α → Option β) :
    (some a >>= f : Option β) = f a := rfl

theorem exceptMapError_ok {α ε η : Type} (a : α) (f : ε → η) :
    (Except.ok a : Except ε α).mapError f = .ok a := rfl

theorem headerBytes_length (h : Header) : (Header.tryIntoBytes h).length = 12 := by
  simp [Header.tryIntoBytes, putU16]

theorem questionLoop_emit_one (q : Question) (pre suf : Bytes) (hq : Question.wf q = true) :
    questionLoop (pre ++ (Question.intoBytes q ++ suf)) 1 pre.length none =
      .ok (some q, pre.length + (Question.intoBytes q).length) := by
  simp only [questionLoop]
  rw [questionParse_emit q pre suf hq]
  simp only [exceptBind_ok]

/-- Claim C1 (amended): the parse/emit round trip holds for `Packet.wf`
packets, where `Packet.wf` adds to the well-formedness stated by the claim
(header counts equal the collection lengths) the conditions the code
actually needs: the header must not declare a query carrying answers
(rejected by design), the enum fields are canonical and the counts fit
u16, names follow the data model (labels of 1-63 bytes of valid UTF-8,
encoded size at most 253), and the rdata avoids the variants whose parse
or emit code has a framing slip (NS, WKS, HINFO, Unknown) as well as root
names inside name-valued rdata (their entry guards overshoot).  On such
packets the round trip is exact equality, with no Z-bit zeroing and no
compression handling: the emitter never compresses and writes Z as is. -/
theorem c1_roundtrip_amended (p : Packet) (hw : Packet.wf p = true) :
    (Packet.intoBytes p).map (fun bs => Packet.parsePacket bs 0) = some (.ok p) := by
  obtain ⟨h, question, answers, authorities, additions⟩ := p
  simp only [Packet.wf, Bool.and_eq_true, beq_iff_eq, Bool.not_eq_true',
    List.all_eq_true] at hw
  obtain ⟨⟨⟨⟨⟨⟨⟨⟨⟨hH, hQC⟩, hAC⟩, hUC⟩, hDC⟩, hNQ⟩, hQW⟩, hAW⟩, hUW⟩, hDW⟩ := hw
  obtain ⟨bssA, hmA, hlA⟩ := rrLoop_emit answers hAW
  obtain ⟨bssU, hmU, hlU⟩ := rrLoop_emit authorities hUW
  obtain ⟨bssD, hmD, hlD⟩ := rrLoop_emit additions hDW
  have hq1 : h.questions ≤ 1 := by
    rw [hQC]
    cases question <;> simp
  have hnq : ¬((h.isQuery : Prop) ∧ h.answers ≠ 0) := by
    intro hcon
    obtain ⟨q1, q2⟩ := hcon
    rw [q1, Bool.true_and] at hNQ
    simp only [bne_eq_false_iff_eq] at hNQ
    exact q2 (by rw [hAC, hNQ])
  simp only [Packet.intoBytes]
  rw [hmA, hmU, hmD]
  simp only [optionBind_some, Option.map_some]
  refine congrArg some ?_
  simp only []
  cases question with
  | none =>
    simp only at hQC hQW
    have hBS : Header.tryIntoBytes h ++ [] ++ bssA.flatten ++ bssU.flatten ++ bssD.flatten =
        Header.tryIntoBytes h ++ (bssA.flatten ++ (bssU.flatten ++ bssD.flatten)) := by simp
    rw [hBS]
    unfold Packet.parsePacket
    rw [headerParse_emit h _ hH hq1]
    simp only [exceptBind_ok]
    rw [if_neg hnq, hQC]
    simp only [questionLoop, exceptMapError_ok, exceptBind_ok]
    rw [hAC]
    have h12 : (0:Nat) + 12 = (Header.tryIntoBytes h).length := by rw [headerBytes_length]
    rw [h12, hlA (Header.tryIntoBytes h) (bssU.flatten ++ bssD.flatten) []]
    simp only [exceptMapError_ok, exceptBind_ok, List.nil_append]
    rw [hUC]
    have hee2 : Header.tryIntoBytes h ++ (bssA.flatten ++ (bssU.flatten ++ bssD.flatten)) =
        (Header.tryIntoBytes h ++ bssA.flatten) ++ (bssU.flatten ++ bssD.flatten) := by simp
    have hpp2 : (Header.tryIntoBytes h).length + bssA.flatten.length =
        (Header.tryIntoBytes h ++ bssA.flatten).length := by simp; try omega
    rw [hee2, hpp2, hlU (Header.tryIntoBytes h ++ bssA.flatten) bssD.flatten []]
    simp only [exceptMapError_ok, exceptBind_ok, List.nil_append]
    rw [hDC]
    have hee3 : (Header.tryIntoBytes h ++ bssA.flatten) ++ (bssU.flatten ++ bssD.flatten) =
        ((Header.tryIntoBytes h ++ bssA.flatten) ++ bssU.flatten) ++ (bssD.flatten ++ []) := by
      simp
    have hpp3 : (Header.tryIntoBytes h ++ bssA.flatten).length + bssU.flatten.length =
        ((Header.tryIntoBytes h ++ bssA.flatten) ++ bssU.flatten).length := by simp; try omega
    rw [hee3, hpp3, hlD ((Header.tryIntoBytes h ++ bssA.flatten) ++ bssU.flatten) [] []]
    simp only [exceptMapError_ok, exceptBind_ok, List.nil_append]
  | some q =>
    simp only at hQC hQW
    have hBS : Header.tryIntoBytes h ++ Question.intoBytes q ++ bssA.flatten ++
        bssU.flatten ++ bssD.flatten =
        Header.tryIntoBytes h ++ (Question.intoBytes q ++
          (bssA.flatten ++ (bssU.flatten ++ bssD.flatten))) := by simp
    rw [hBS]
    unfold Packet.parsePacket
    rw [headerParse_emit h _ hH hq1]
    simp only [exceptBind_ok]
    rw [if_neg hnq, hQC]
    have h12 : (0:Nat) + 12 = (Header.tryIntoBytes h).length := by rw [headerBytes_length]
    rw [h12, questionLoop_emit_one q (Header.tryIntoBytes h)
      (bssA.flatten ++ (bssU.flatten ++ bssD.flatten)) hQW]
    simp only [exceptMapError_ok, exceptBind_ok]
    rw [hAC]
    have hee1 : Header.tryIntoBytes h ++ (Question.intoBytes q ++
        (bssA.flatten ++ (bssU.flatten ++ bssD.flatten))) =
        (Header.tryIntoBytes h ++ Question.intoBytes q) ++
        (bssA.flatten ++ (bssU.flatten ++ bssD.flatten)) := by simp
    have hpp1 : (Header.tryIntoBytes h).length + (Question.intoBytes q).length =
        (Header.tryIntoBytes h ++ Question.intoBytes q).length := by simp; try omega
    rw [hee1, hpp1, hlA (Header.tryIntoBytes h ++ Question.intoBytes q)
      (bssU.flatten ++ bssD.flatten) []]
    simp only [exceptMapError_ok, exceptBind_ok, List.nil_append]
    rw [hUC]
    have hee2 : (Header.tryIntoBytes h ++ Question.intoBytes q) ++
        (bssA.flatten ++ (bssU.flatten ++ bssD.flatten)) =
        ((Header.tryIntoBytes h ++ Question.intoBytes q) ++ bssA.flatten) ++
        (bssU.flatten ++ bssD.flatten) := by simp
    have hpp2 : (Header.tryIntoBytes h ++ Question.intoBytes q).length + bssA.flatten.length =
        ((Header.tryIntoBytes h ++ Question.intoBytes q) ++ bssA.flatten).length := by simp; try omega
    rw [hee2, hpp2, hlU ((Header.tryIntoBytes h ++ Question.intoBytes q) ++ bssA.flatten)
      bssD.flatten []]
    simp only [exceptMapError_ok, exceptBind_ok, List.nil_append]
    rw [hDC]
    have hee3 : ((Header.tryIntoBytes h ++ Question.intoBytes q) ++ bssA.flatten) ++
        (bssU.flatten ++ bssD.flatten) =
        (((Header.tryIntoBytes h ++ Question.intoBytes q) ++ bssA.flatten) ++ bssU.flatten) ++
        (bssD.flatten ++ []) := by simp
    have hpp3 : ((Header.tryIntoBytes h ++ Question.intoBytes q) ++ bssA.flatten).length +
        bssU.flatten.length =
        (((Header.tryIntoBytes h ++ Question.intoBytes q) ++ bssA.flatten) ++
          bssU.flatten).length := by simp; try omega
    rw [hee3, hpp3, hlD (((Header.tryIntoBytes h ++ Question.intoBytes q) ++ bssA.flatten) ++
      bssU.flatten) [] []]
    simp only [exceptMapError_ok, exceptBind_ok, List.nil_append]

/-- Claim C1 (counterexample): `c1CounterPacket` satisfies the
well-formedness stated by the claim, header counts equal collection
lengths, yet parsing the emitted bytes does not yield the packet back
(under any of the stated modulo-exceptions, which do not apply: Z is 0
and no compression pointers are present): `parse_packet` rejects every
query whose answer count is nonzero with FormatError. -/
theorem c1_roundtrip_counterexample :
    (c1CounterPacket.header.questions = 0 ∧ c1CounterPacket.question = none ∧
     c1CounterPacket.header.answers = c1CounterPacket.answers.length ∧
     c1CounterPacket.header.authorities = c1CounterPacket.authorities.length ∧
     c1CounterPacket.header.additional = c1CounterPacket.additions.length) ∧
    (Packet.intoBytes c1CounterPacket).map (fun bs => Packet.parsePacket bs 0) ≠
      some (.ok c1CounterPacket) := by decide

/-- Claim C1, witness for the amended theorem at the concrete packet
`c1WitnessPacket` (one question and one A record). -/
theorem c1_roundtrip_amended_witness :
    Packet.wf c1WitnessPacket = true ∧
    (Packet.intoBytes c1WitnessPacket).map (fun bs => Packet.parsePacket bs 0) =
      some (.ok c1WitnessPacket) :=
  ⟨by decide, c1_roundtrip_amended c1WitnessPacket (by decide)⟩

end TseinDNS
